import Mathlib

/-! Low order moments: the partial result store.

A shallow embedding of `low_order_moments_partial_result.cpp`
(`PartialResult::getNumberOfColumns`, `get`, `set`, the two `check` overloads,
`checkImpl` and `DefaultPartialResultInit::operator()`), followed by the
properties proved about it.

The library pieces the file only calls (the numeric table type, the layout
flags, `checkNumericTable`, the `Argument` container, the identifier
enumeration and the label strings) are declared in headers that are not part
of the sources at hand; each of them is modelled below and marked as such.

Validation only reads the tables, so it is stated on the tables a store gives
access to. Default initialization writes to the tables in place through
shared pointers, so it is stated on a memory of table objects in which the
slots of the store and the input hold addresses.
-/

set_option autoImplicit false

namespace daal

/-! ## Library model -/

/-- Modelled from the spec: the storage layouts of `NumericTableIface`
(declared in `numeric_table.h`, not among the sources). The spec names dense
layouts, packed symmetric/triangular layouts and the compressed-sparse layout. -/
inductive StorageLayout where
  | soa
  | aos
  | csrArray
  | upperPackedSymmetricMatrix
  | lowerPackedSymmetricMatrix
  | upperPackedTriangularMatrix
  | lowerPackedTriangularMatrix
  deriving DecidableEq, Repr

/-- A set of layout flags (the C++ code keeps it in an `int` used as a bit set). -/
abbrev LayoutMask := List StorageLayout

/-- Modelled from the spec: the flag set `(int)NumericTableIface::csrArray`,
the compressed-sparse layout alone. -/
def csrArrayMask : LayoutMask := [StorageLayout.csrArray]

/-- Modelled from the spec: the constant `packed_mask` of `numeric_table.h`
(not among the sources): the layouts the spec calls unsupported for a moment
vector, that is the packed symmetric/triangular layouts and the
compressed-sparse layout. -/
def packed_mask : LayoutMask :=
  [StorageLayout.csrArray,
   StorageLayout.upperPackedSymmetricMatrix,
   StorageLayout.lowerPackedSymmetricMatrix,
   StorageLayout.upperPackedTriangularMatrix,
   StorageLayout.lowerPackedTriangularMatrix]

/-- The spec's notion of a packed (symmetric or triangular) layout. -/
def StorageLayout.isPacked : StorageLayout → Bool
  | .upperPackedSymmetricMatrix => true
  | .lowerPackedSymmetricMatrix => true
  | .upperPackedTriangularMatrix => true
  | .lowerPackedTriangularMatrix => true
  | _ => false

/-- The spec's notion of a dense layout: neither packed nor compressed-sparse. -/
def StorageLayout.isDense : StorageLayout → Bool
  | .soa => true
  | .aos => true
  | _ => false

/-- Modelled from the spec: a numeric table (declared in `numeric_table.h`,
not among the sources) as far as this file observes it: its layout, its
column and row counts and its values, row by row. `V` is the scalar type. -/
structure NumericTable (V : Type) where
  layout : StorageLayout
  nColumns : Nat
  nRows : Nat
  rows : List (List V)
  deriving DecidableEq, Repr

/-- A shared pointer to a numeric table; `none` is the empty (null) pointer. -/
abbrev NumericTablePtr (V : Type) := Option (NumericTable V)

namespace services

/-- Modelled from the spec: the kinds of failure of section 7 of the spec
that validation can report. `InvalidState` is reported for a vector that is
not set, `InvalidLayout` for an unsupported layout, `ShapeMismatch` for a
wrong column or row count. -/
inductive ErrorID where
  | InvalidState
  | InvalidLayout
  | ShapeMismatch
  deriving DecidableEq, Repr

/-- One reported failure: its kind and the label of the offending vector. -/
structure Error where
  id : ErrorID
  argumentName : String
  deriving DecidableEq, Repr

/-- Modelled from the spec: `services::Status` (declared in
`error_handling.h`, not among the sources): the failures collected so far;
the status is a success exactly when there is none. -/
structure Status where
  errors : List Error
  deriving DecidableEq, Repr

namespace Status

/-- The default-constructed status `services::Status s;`. -/
def empty : Status := ⟨[]⟩

/-- The boolean reading of a status (`if(!s)` tests its negation). -/
def ok (s : Status) : Bool := s.errors.isEmpty

/-- The accumulation `s |= t`. -/
def add (s t : Status) : Status := ⟨s.errors ++ t.errors⟩

/-- A status holding one failure. -/
def fail (id : ErrorID) (name : String) : Status := ⟨[⟨id, name⟩]⟩

end Status
end services

open services

/-- Modelled from the spec: `checkNumericTable` (declared in
`numeric_table.h`, not among the sources). Following the spec's description of
validation, a table passes when it is set, its layout is none of
`unexpectedLayouts`, it is one of `expectedLayouts` when some are given, and
its column and row counts are the expected ones; the failure names the table
by `description`. An argument that a call leaves out (the layouts and the
counts in the call of `getNumberOfColumns`, the counts in the second call of
the parameter-only `check`) is passed as the empty mask or as `none`: no
expectation. -/
def checkNumericTable {V : Type} (nt : NumericTablePtr V) (description : String)
    (unexpectedLayouts : LayoutMask) (expectedLayouts : LayoutMask)
    (nColumns : Option Nat) (nRows : Option Nat) : Status :=
  match nt with
  | none => Status.fail ErrorID.InvalidState description
  | some t =>
    if unexpectedLayouts.contains t.layout then
      Status.fail ErrorID.InvalidLayout description
    else if !expectedLayouts.isEmpty && !expectedLayouts.contains t.layout then
      Status.fail ErrorID.InvalidLayout description
    else if nColumns.isSome && nColumns != some t.nColumns then
      Status.fail ErrorID.ShapeMismatch description
    else if nRows.isSome && nRows != some t.nRows then
      Status.fail ErrorID.ShapeMismatch description
    else Status.empty

namespace algorithms

/-- Modelled from the spec: the `Argument` container of `algorithm_types.h`
(not among the sources): a fixed number of slots, each holding a table
pointer, selected by an identifier. -/
structure Argument (V : Type) where
  storage : List (NumericTablePtr V)
  deriving DecidableEq, Repr

/-- The container built by `Argument(n)`: `n` empty slots. -/
def Argument.create (V : Type) (n : Nat) : Argument V := ⟨List.replicate n none⟩

/-- Modelled from the spec: the slot lookup `Argument::get(index)`. A slot
that was never set holds the empty pointer: `getNumberOfColumns` and both
`check` overloads hand what the lookup returns to `checkNumericTable`, which
is how an unset vector is found. -/
def Argument.get {V : Type} (a : Argument V) (index : Nat) : NumericTablePtr V :=
  a.storage.getD index none

/-- Modelled from the spec: the slot update `Argument::set(index, ptr)`. -/
def Argument.set {V : Type} (a : Argument V) (index : Nat) (ptr : NumericTablePtr V) :
    Argument V :=
  ⟨a.storage.set index ptr⟩

namespace low_order_moments

/-- Modelled from the spec: the identifier enumeration `PartialResultId` of
`low_order_moments_types.h` (not among the sources); as in C++ an identifier
is its integer value, in the order count, min, max, sum, sumSquares,
sumSquaresCentered. -/
abbrev PartialResultId := Nat

/-- Modelled from the spec: the identifier of the count vector. -/
def nObservations : PartialResultId := 0

/-- Modelled from the spec: the identifier of the min vector. -/
def partialMinimum : PartialResultId := 1

/-- Modelled from the spec: the identifier of the max vector. -/
def partialMaximum : PartialResultId := 2

/-- Modelled from the spec: the identifier of the sum vector. -/
def partialSum : PartialResultId := 3

/-- Modelled from the spec: the identifier of the sumSquares vector. -/
def partialSumSquares : PartialResultId := 4

/-- Modelled from the spec: the identifier of the sumSquaresCentered vector. -/
def partialSumSquaresCentered : PartialResultId := 5

/-- The number of identifiers, `nPartialResults`. -/
def nPartialResults : Nat := 6

/-- Modelled from the spec: the fixed label of the count vector (the string
functions are declared in a header that is not among the sources; the spec
lists the six labels). -/
def nObservationsStr : String := "nObservations"

/-- Modelled from the spec: the fixed label of the min vector. -/
def partialMinimumStr : String := "min"

/-- Modelled from the spec: the fixed label of the max vector. -/
def partialMaximumStr : String := "max"

/-- Modelled from the spec: the fixed label of the sum vector. -/
def partialSumStr : String := "sum"

/-- Modelled from the spec: the fixed label of the sumSquares vector. -/
def partialSumSquaresStr : String := "sumSquares"

/-- Modelled from the spec: the fixed label of the sumSquaresCentered vector. -/
def partialSumSquaresCenteredStr : String := "sumSquaresCentered"

/-! ## The partial result store -/

/-- The partial result: an `Argument` container with `nPartialResults` slots. -/
abbrev PartialResult (V : Type) := Argument V

/-- The constructor `PartialResult::PartialResult()`. -/
def PartialResult.create (V : Type) : PartialResult V := Argument.create V nPartialResults

/-- The accessor `PartialResult::get(id)`: the pointer stored under `id`. -/
def PartialResult.get {V : Type} (pr : PartialResult V) (id : PartialResultId) :
    NumericTablePtr V :=
  Argument.get pr id

/-- The setter `PartialResult::set(id, ptr)`. -/
def PartialResult.set {V : Type} (pr : PartialResult V) (id : PartialResultId)
    (ptr : NumericTablePtr V) : PartialResult V :=
  Argument.set pr id ptr

/-- The method `PartialResult::getNumberOfColumns()`. -/
def PartialResult.getNumberOfColumns {V : Type} (pr : PartialResult V) : Nat :=
  let ntPtr := Argument.get pr partialMinimum
  if (checkNumericTable ntPtr partialMinimumStr [] [] none none).ok then
    match ntPtr with
    | some t => t.nColumns
    | none => 0
  else 0

/-- The table `errorMessages` of `checkImpl`. -/
def errorMessages : List String :=
  [partialMinimumStr, partialMaximumStr, partialSumStr, partialSumSquaresStr,
   partialSumSquaresCenteredStr]

/-- The loop of `checkImpl`, started at index `i` with status `s` and `fuel`
iterations left (`fuel = nPartialResults - i`). -/
def checkImplLoop {V : Type} (pr : PartialResult V) (nFeatures : Nat) :
    (fuel : Nat) → (i : Nat) → Status → Status
  | 0, _, s => s
  | fuel + 1, i, s =>
    let s1 := s.add (checkNumericTable (pr.get i) (errorMessages.getD (i - 1) "")
      packed_mask [] (some nFeatures) (some 1))
    if !s1.ok then s1 else checkImplLoop pr nFeatures fuel (i + 1) s1

/-- The method `PartialResult::checkImpl(nFeatures)`. -/
def PartialResult.checkImpl {V : Type} (pr : PartialResult V) (nFeatures : Nat) : Status :=
  checkImplLoop pr nFeatures (nPartialResults - 1) 1 Status.empty

/-- The method `PartialResult::check(parameter, method)`; neither argument is
read. A step that C++ leaves undefined (reading the column count through an
empty pointer) cannot be reached: the check just before it has failed. -/
def PartialResult.checkPar {V : Type} (pr : PartialResult V) : Status :=
  let s := Status.empty
  let s := s.add (checkNumericTable (pr.get nObservations) nObservationsStr csrArrayMask []
    (some 1) (some 1))
  if !s.ok then s else
  let s := s.add (checkNumericTable (pr.get partialMinimum) partialMinimumStr packed_mask
    [] none none)
  if !s.ok then s else
  match pr.get partialMinimum with
  | none => s
  | some t =>
    let nFeatures := t.nColumns
    s.add (pr.checkImpl nFeatures)

/-- The interface `InputIface` as `check` uses it: the call
`getNumberOfColumns(&nFeatures)` yields a status and the value left in
`nFeatures`. -/
structure InputIface where
  getNumberOfColumns : Status × Nat

/-- The method `PartialResult::check(input, parameter, method)`. The macro
`DAAL_CHECK_STATUS(s, x)` adds `x` to `s` and returns `s` when it holds a
failure. -/
def PartialResult.check {V : Type} (pr : PartialResult V) (input : InputIface) : Status :=
  let s := Status.empty
  let s := s.add input.getNumberOfColumns.1
  if !s.ok then s else
  let nFeatures := input.getNumberOfColumns.2
  let s := s.add (checkNumericTable (pr.get nObservations) nObservationsStr csrArrayMask []
    (some 1) (some 1))
  if !s.ok then s else
  s.add (pr.checkImpl nFeatures)

/-! ## Default initialization -/

/-- The access modes of a block of rows. -/
inductive ReadWriteMode where
  | readOnly
  | writeOnly
  | readWrite
  deriving DecidableEq, Repr

/-- Modelled from the spec: `getBlockOfRows(idx, 1, mode, block)` of the table
access adapter (not among the sources), for a block of one row: the buffer
holds the values of row `idx`; there is no buffer when the table has no such
row. -/
def getBlockOfRows {V : Type} (t : NumericTable V) (idx : Nat) : Option (List V) :=
  t.rows.get? idx

/-- Modelled from the spec: `releaseBlockOfRows(block)` for a block of one row
acquired at row `idx`: a block acquired for writing is stored back into the
table, a read-only block is dropped. -/
def releaseBlockOfRows {V : Type} (t : NumericTable V) (idx : Nat) (mode : ReadWriteMode)
    (block : List V) : NumericTable V :=
  match mode with
  | ReadWriteMode.readOnly => t
  | _ => { t with rows := t.rows.set idx block }

/-- The input of the algorithm: the table stored under the identifier `data`. -/
structure Input (V : Type) where
  data : NumericTablePtr V
  deriving DecidableEq, Repr

/-- The label of the input table. -/
def dataStr : String := "data"

/-- Modelled from the spec: `Input::getNumberOfColumns(&nCols)` (defined in a
file that is not among the sources): the feature count is the column count of
the input table; when the table is not set the call fails and `nCols` keeps
its value. -/
def Input.getNumberOfColumns {V : Type} (input : Input V) (nCols : Nat) : Status × Nat :=
  match input.data with
  | some t => (Status.empty, t.nColumns)
  | none => (Status.fail ErrorID.InvalidState dataStr, nCols)

/-- The loop `for j < nColumns: partialEstimate[j] = firstRow[j]`, started at
`j` with `fuel = nColumns - j` iterations left. An access outside either
buffer is undefined in C++ and gives `none`. -/
def copyFirstRow {V : Type} (firstRow : List V) :
    (fuel : Nat) → (j : Nat) → List V → Option (List V)
  | 0, _, partialEstimate => some partialEstimate
  | fuel + 1, j, partialEstimate =>
    match firstRow.get? j with
    | none => none
    | some x =>
      if j < partialEstimate.length then
        copyFirstRow firstRow fuel (j + 1) (partialEstimate.set j x)
      else none

/-- The loop `for j < nColumns: partialEstimate[j] = 0`, started at `j` with
`fuel = nColumns - j` iterations left. A write outside the buffer is undefined
in C++ and gives `none`. -/
def fillZero {V : Type} [Zero V] : (fuel : Nat) → (j : Nat) → List V → Option (List V)
  | 0, _, partialEstimate => some partialEstimate
  | fuel + 1, j, partialEstimate =>
    if j < partialEstimate.length then
      fillZero fuel (j + 1) (partialEstimate.set j 0)
    else none

/-! ## Notions of the specification -/

/-- The spec's notion of a layout this engine does not support: packed
(symmetric or triangular) or compressed-sparse. -/
def unsupportedLayout (l : StorageLayout) : Bool :=
  l.isPacked || l == StorageLayout.csrArray

/-- A per-column vector is malformed for an expected feature count when it is
unset, has another column count, has not exactly one row, or has an
unsupported layout. -/
def malformed {V : Type} (p : NumericTablePtr V) (nFeaturesExpected : Nat) : Bool :=
  match p with
  | none => true
  | some t =>
    t.nColumns != nFeaturesExpected || t.nRows != 1 || unsupportedLayout t.layout

/-- The fixed label of the vector with identifier `k`, as the spec lists them. -/
def vectorLabel (k : PartialResultId) : String :=
  match k with
  | 0 => "nObservations"
  | 1 => "min"
  | 2 => "max"
  | 3 => "sum"
  | 4 => "sumSquares"
  | 5 => "sumSquaresCentered"
  | _ => ""

/-- The table check that `checkImpl` applies to the vector with identifier `i`. -/
def vectorCheck {V : Type} (pr : PartialResult V) (nFeatures : Nat) (i : PartialResultId) :
    Status :=
  checkNumericTable (pr.get i) (errorMessages.getD (i - 1) "") packed_mask [] (some nFeatures)
    (some 1)

/-- The table check that validation applies to the count vector. -/
def countCheck {V : Type} (pr : PartialResult V) : Status :=
  checkNumericTable (pr.get nObservations) nObservationsStr csrArrayMask [] (some 1) (some 1)

/-- The spec's notion of a malformed count vector: unset, not exactly one
column by one row, or of a layout the spec does not accept (packed or
compressed-sparse). -/
def malformedCount {V : Type} (p : NumericTablePtr V) : Bool :=
  match p with
  | none => true
  | some t => t.nColumns != 1 || t.nRows != 1 || unsupportedLayout t.layout

/-- The count vectors that the count check of the code turns down: unset, not
exactly one column by one row, or of compressed-sparse layout. -/
def countRejected {V : Type} (p : NumericTablePtr V) : Bool :=
  match p with
  | none => true
  | some t => t.nColumns != 1 || t.nRows != 1 || t.layout == StorageLayout.csrArray

/-- An allocated table with the given numbers of columns and rows: the pointer
is set, the counts are the given ones and the values are present, row by row. -/
def allocated {V : Type} (p : NumericTablePtr V) (nColumns nRows : Nat) : Bool :=
  match p with
  | none => false
  | some t =>
    t.nColumns == nColumns && t.nRows == nRows &&
      t.rows.length == nRows && t.rows.all (fun row => row.length == nColumns)

/-- A dense allocated table with the given numbers of columns and rows. -/
def denseAllocated {V : Type} (p : NumericTablePtr V) (nColumns nRows : Nat) : Bool :=
  match p with
  | none => false
  | some t => t.layout.isDense && allocated p nColumns nRows

/-- A call of `get(id)` as its caller observes it: the method returns a table
pointer and has no way to report a failure (its result type is the pointer,
not a status), so the call always returns. -/
def PartialResult.getCall {V : Type} (pr : PartialResult V) (id : PartialResultId) :
    Except ErrorID (NumericTablePtr V) :=
  Except.ok (pr.get id)

/-! ## Instrumented runs -/

/-- The table a block of rows belongs to: the input table or the vector of the
store under an identifier. -/
inductive TableRef where
  | input
  | store (id : PartialResultId)
  deriving DecidableEq, Repr

/-- The calls that `DefaultPartialResultInit::operator()` makes to the table
access adapter: `getBlockOfRows` acquires a block, `releaseBlockOfRows`
releases it. -/
inductive BlockEvent where
  | acquire (table : TableRef) (mode : ReadWriteMode)
  | release (table : TableRef)
  deriving DecidableEq, Repr

/-- Every acquisition is released exactly once: reading the adapter calls in
order with the list `held` of the blocks acquired and not yet released, no
block is acquired while it is held, no block is released unless it is held,
and none is held at the end. -/
def releasedOnce : List BlockEvent → List TableRef → Bool
  | [], held => held.isEmpty
  | BlockEvent.acquire t _ :: rest, held => !held.contains t && releasedOnce rest (t :: held)
  | BlockEvent.release t :: rest, held => held.contains t && releasedOnce rest (held.erase t)

/-- The adapter calls of the loop over the per-column vectors, for `fuel`
iterations from the identifier `i` on. -/
def loopEvents : (fuel : Nat) → (i : Nat) → List BlockEvent
  | 0, _ => []
  | fuel + 1, i =>
    BlockEvent.acquire (TableRef.store i) ReadWriteMode.writeOnly ::
      BlockEvent.release (TableRef.store i) :: loopEvents fuel (i + 1)

/-- The adapter calls of one default initialization. -/
def initEvents : List BlockEvent :=
  [BlockEvent.acquire (TableRef.store nObservations) ReadWriteMode.writeOnly,
   BlockEvent.release (TableRef.store nObservations),
   BlockEvent.acquire TableRef.input ReadWriteMode.readOnly] ++
    loopEvents (nPartialResults - 1) 1 ++ [BlockEvent.release TableRef.input]

/-- The tables of the blocks acquired, in the order of acquisition. -/
def acquisitions : List BlockEvent → List TableRef
  | [] => []
  | BlockEvent.acquire t _ :: rest => t :: acquisitions rest
  | BlockEvent.release _ :: rest => acquisitions rest

/-- The tables of the blocks released, in the order of release. -/
def releases : List BlockEvent → List TableRef
  | [] => []
  | BlockEvent.acquire _ _ :: rest => releases rest
  | BlockEvent.release t :: rest => t :: releases rest

/-- The layout, column count and row count of a table, when the pointer is set. -/
def tableShape {V : Type} (p : NumericTablePtr V) : Option (StorageLayout × Nat × Nat) :=
  match p with
  | none => none
  | some t => some (t.layout, t.nColumns, t.nRows)

/-- The value in row `r` and column `j` of a table, when there is one. -/
def tableEntry {V : Type} (p : NumericTablePtr V) (r j : Nat) : Option V :=
  match p with
  | none => none
  | some t =>
    match t.rows.get? r with
    | none => none
    | some row => row.get? j

/-- What the parameter-only `check` does with the vectors of the store: it
hands a vector to a table check, or it reads the column count through the
pointer. -/
inductive Access where
  | tableCheck (id : PartialResultId)
  | columnCount (id : PartialResultId)
  deriving DecidableEq, Repr

/-- The loop of `checkImpl` with the accesses it makes, in order. -/
def checkImplLoopSteps {V : Type} (pr : PartialResult V) (nFeatures : Nat) :
    (fuel : Nat) → (i : Nat) → Status → List Access × Status
  | 0, _, s => ([], s)
  | fuel + 1, i, s =>
    let s1 := s.add (checkNumericTable (pr.get i) (errorMessages.getD (i - 1) "")
      packed_mask [] (some nFeatures) (some 1))
    if !s1.ok then ([Access.tableCheck i], s1)
    else
      let r := checkImplLoopSteps pr nFeatures fuel (i + 1) s1
      (Access.tableCheck i :: r.1, r.2)

/-- The method `PartialResult::check(parameter, method)` with the accesses it
makes, in order. Reading the column count through an empty pointer is
undefined in C++: the result is then `none`. -/
def PartialResult.checkParSteps {V : Type} (pr : PartialResult V) :
    Option (List Access × Status) :=
  let s := Status.empty
  let s := s.add (checkNumericTable (pr.get nObservations) nObservationsStr csrArrayMask []
    (some 1) (some 1))
  if !s.ok then some ([Access.tableCheck nObservations], s) else
  let s := s.add (checkNumericTable (pr.get partialMinimum) partialMinimumStr packed_mask
    [] none none)
  if !s.ok then some ([Access.tableCheck nObservations, Access.tableCheck partialMinimum], s)
  else
  match pr.get partialMinimum with
  | none => none
  | some t =>
    let nFeatures := t.nColumns
    let r := checkImplLoopSteps pr nFeatures (nPartialResults - 1) 1 Status.empty
    some ([Access.tableCheck nObservations, Access.tableCheck partialMinimum,
      Access.columnCount partialMinimum] ++ r.1, s.add r.2)

/-- The table check that the parameter-only `check` applies to the min vector
before it reads the column count. -/
def minCheck {V : Type} (pr : PartialResult V) : Status :=
  checkNumericTable (pr.get partialMinimum) partialMinimumStr packed_mask [] none none

/-! ## Shared tables -/

/-- The table objects of the program, by address. The source holds its tables
through shared pointers and writes to them in place: two pointers with the
same address see the same table, whatever slot or input they sit in. -/
abbrev TableHeap (V : Type) := List (NumericTable V)

/-- The table a shared pointer points to; the empty pointer points to none. -/
def deref {V : Type} (h : TableHeap V) (p : Option Nat) : NumericTablePtr V :=
  match p with
  | none => none
  | some a => h.get? a

/-- The partial result as the source holds it: under each identifier a shared
pointer, that is the address of a table object or the empty pointer. -/
structure SharedPartialResult where
  slots : List (Option Nat)
  deriving DecidableEq, Repr

/-- The pointer stored under `id`. -/
def SharedPartialResult.get (pres : SharedPartialResult) (id : PartialResultId) : Option Nat :=
  pres.slots.getD id none

/-- The store with every pointer followed: the tables that `get(id)` gives
access to in the memory `h`. -/
def SharedPartialResult.view {V : Type} (pres : SharedPartialResult) (h : TableHeap V) :
    PartialResult V :=
  ⟨pres.slots.map (deref h)⟩

/-- The input as the source holds it: a shared pointer to the data table. -/
structure SharedInput where
  data : Option Nat
  deriving DecidableEq, Repr

/-- The input with its pointer followed in the memory `h`. -/
def SharedInput.view {V : Type} (input : SharedInput) (h : TableHeap V) : Input V :=
  ⟨deref h input.data⟩

/-- The loop over the identifiers `i = 1 .. nPartialResults - 1` of
`DefaultPartialResultInit::operator()`, started at `i` with
`fuel = nPartialResults - i` iterations left: the memory after the loop and
the adapter calls made, in order. Each iteration acquires the first row of the
table that slot `i` points to, fills it and releases it, which writes the row
into that table object. Going through an empty pointer or a missing row gives
`none`. -/
def initEstimates {V : Type} [Zero V] (firstRow : List V) (nColumns : Nat)
    (pres : SharedPartialResult) :
    (fuel : Nat) → (i : Nat) → TableHeap V → Option (TableHeap V × List BlockEvent)
  | 0, _, h => some (h, [])
  | fuel + 1, i, h =>
    match pres.get i with
    | none => none
    | some a =>
      match h.get? a with
      | none => none
      | some nt =>
        match getBlockOfRows nt 0 with
        | none => none
        | some partialEstimate =>
          let written :=
            if i = partialMinimum ∨ i = partialMaximum then
              copyFirstRow firstRow nColumns 0 partialEstimate
            else
              fillZero nColumns 0 partialEstimate
          match written with
          | none => none
          | some block =>
            match initEstimates firstRow nColumns pres fuel (i + 1)
              (h.set a (releaseBlockOfRows nt 0 ReadWriteMode.writeOnly block)) with
            | none => none
            | some (out, events) =>
              some (out,
                BlockEvent.acquire (TableRef.store i) ReadWriteMode.writeOnly ::
                  BlockEvent.release (TableRef.store i) :: events)

/-- The call operator `DefaultPartialResultInit::operator()(input, pres)` on
the memory `h`: the memory after the call and the adapter calls made, in
order; `none` when the call runs into undefined behaviour (an empty pointer, a
table without a first row, a buffer too short). -/
def DefaultPartialResultInit {V : Type} [Zero V] (h : TableHeap V) (input : SharedInput)
    (pres : SharedPartialResult) : Option (TableHeap V × List BlockEvent) :=
  match pres.get nObservations with
  | none => none
  | some a0 =>
    match h.get? a0 with
    | none => none
    | some nRowsTable =>
      match getBlockOfRows nRowsTable 0 with
      | none => none
      | some nRowsBlock =>
        if 0 < nRowsBlock.length then
          let nRows := nRowsBlock.set 0 0
          let h1 := h.set a0 (releaseBlockOfRows nRowsTable 0 ReadWriteMode.writeOnly nRows)
          match input.data with
          | none => none
          | some ain =>
            match h1.get? ain with
            | none => none
            | some inTable =>
              match getBlockOfRows inTable 0 with
              | none => none
              | some firstRow =>
                let nColumns := ((input.view h1).getNumberOfColumns 0).2
                match initEstimates firstRow nColumns pres (nPartialResults - 1) 1 h1 with
                | none => none
                | some (h2, events) =>
                  match h2.get? ain with
                  | none => none
                  | some inTable2 =>
                    some (h2.set ain
                        (releaseBlockOfRows inTable2 0 ReadWriteMode.readOnly firstRow),
                      [BlockEvent.acquire (TableRef.store nObservations)
                          ReadWriteMode.writeOnly,
                        BlockEvent.release (TableRef.store nObservations),
                        BlockEvent.acquire TableRef.input ReadWriteMode.readOnly] ++ events ++
                      [BlockEvent.release TableRef.input])
        else none

/-- A table with a first row of at least `n` values. -/
def hasFirstRow {V : Type} (p : NumericTablePtr V) (n : Nat) : Bool :=
  match p with
  | none => false
  | some t =>
    match t.rows.get? 0 with
    | none => false
    | some row => decide (n ≤ row.length)

/-! ## Validation as a sequence of steps on the program state -/

/-- The program state validation runs in: the table objects and the store. -/
structure Machine (V : Type) where
  heap : TableHeap V
  pres : SharedPartialResult

/-- A step of the program: from a state to a result and the state after it. -/
abbrev Step (V : Type) (α : Type) := Machine V → α × Machine V

/-- The step `get(id).get()`: the accessor, declared `const` (line 65), reads
the pointer in the slot `id`. -/
def getStep {V : Type} (id : PartialResultId) : Step V (Option Nat) :=
  fun m => (m.pres.get id, m)

/-- Modelled from the spec: the step `checkNumericTable(nt, ...)`; validation
inspects the shape and layout of the table that the pointer points to. -/
def checkNumericTableStep {V : Type} (nt : Option Nat) (description : String)
    (unexpectedLayouts expectedLayouts : LayoutMask) (nColumns nRows : Option Nat) :
    Step V Status :=
  fun m => (checkNumericTable (deref m.heap nt) description unexpectedLayouts expectedLayouts
    nColumns nRows, m)

/-- The loop of `checkImpl` as steps on the program state. -/
def checkImplLoopStep {V : Type} (nFeatures : Nat) :
    (fuel : Nat) → (i : Nat) → Status → Step V Status
  | 0, _, s => fun m => (s, m)
  | fuel + 1, i, s => fun m =>
    let r1 := getStep i m
    let r2 := checkNumericTableStep r1.1 (errorMessages.getD (i - 1) "") packed_mask []
      (some nFeatures) (some 1) r1.2
    let s1 := s.add r2.1
    if !s1.ok then (s1, r2.2) else checkImplLoopStep nFeatures fuel (i + 1) s1 r2.2

/-- The method `PartialResult::checkImpl(nFeatures)` as steps on the program
state. -/
def checkImplStep {V : Type} (nFeatures : Nat) : Step V Status :=
  checkImplLoopStep nFeatures (nPartialResults - 1) 1 Status.empty

/-- The method `PartialResult::check(input, parameter, method)` as steps on
the program state. -/
def checkStep {V : Type} (input : InputIface) : Step V Status :=
  fun m =>
    let s := Status.empty
    let s := s.add input.getNumberOfColumns.1
    if !s.ok then (s, m) else
    let nFeatures := input.getNumberOfColumns.2
    let r1 := getStep nObservations m
    let r2 := checkNumericTableStep r1.1 nObservationsStr csrArrayMask [] (some 1) (some 1) r1.2
    let s := s.add r2.1
    if !s.ok then (s, r2.2) else
    let r3 := checkImplStep nFeatures r2.2
    (s.add r3.1, r3.2)

/-! ## Concrete stores -/

/-- A one-row table of integers with the given layout and values. -/
def rowTable (l : StorageLayout) (row : List Int) : NumericTable Int :=
  ⟨l, row.length, 1, [row]⟩

/-- A valid store for two features. -/
def validStore : PartialResult Int :=
  ⟨[some (rowTable .soa [7]), some (rowTable .soa [1, 2]), some (rowTable .soa [3, 4]),
    some (rowTable .soa [5, 6]), some (rowTable .aos [7, 8]), some (rowTable .soa [9, 10])]⟩

/-- A store for two features whose max vector is unset and whose sumSquares
vector has three columns. -/
def storeMaxUnset : PartialResult Int :=
  ⟨[some (rowTable .soa [7]), some (rowTable .soa [1, 2]), none,
    some (rowTable .soa [5, 6]), some (rowTable .soa [7, 8, 9]), some (rowTable .soa [9, 10])]⟩

/-- A store whose count vector is a 1x1 table of packed triangular layout and
whose min vector is unset. -/
def storePackedCountNoMin : PartialResult Int :=
  ⟨[some (rowTable .lowerPackedTriangularMatrix [7]), none, some (rowTable .soa [3, 4]),
    some (rowTable .soa [5, 6]), some (rowTable .soa [7, 8]), some (rowTable .soa [9, 10])]⟩

/-- A store for two features, valid except that its count vector is a 1x1
table of packed symmetric layout. -/
def storePackedCount : PartialResult Int :=
  ⟨[some (rowTable .upperPackedSymmetricMatrix [7]), some (rowTable .soa [1, 2]),
    some (rowTable .soa [3, 4]), some (rowTable .soa [5, 6]), some (rowTable .soa [7, 8]),
    some (rowTable .soa [9, 10])]⟩

/-- A store whose count vector has compressed-sparse layout. -/
def storeCsrCount : PartialResult Int :=
  ⟨[some (rowTable .csrArray [7]), none, some (rowTable .soa [3, 4]),
    some (rowTable .soa [5, 6]), some (rowTable .soa [7, 8]), some (rowTable .soa [9, 10])]⟩

/-- A store for two features whose min vector is unset. -/
def storeMinUnset : PartialResult Int :=
  ⟨[some (rowTable .soa [7]), none, some (rowTable .soa [3, 4]),
    some (rowTable .soa [5, 6]), some (rowTable .soa [7, 8]), some (rowTable .soa [9, 10])]⟩

/-- A memory of seven tables: at address 0 a 1x1 count table, at addresses 1
to 5 tables of one row and two columns, at address 6 an input table of two
rows and two columns. -/
def exampleHeap : TableHeap Int :=
  [rowTable .soa [7], rowTable .soa [1, 2], rowTable .soa [3, 4], rowTable .soa [5, 6],
   rowTable .aos [7, 8], rowTable .soa [9, 10], ⟨.soa, 2, 2, [[5, -6], [8, 9]]⟩]

/-- The store whose six vectors are the six different tables at the addresses
0 to 5. -/
def exampleStore : SharedPartialResult :=
  ⟨[some 0, some 1, some 2, some 3, some 4, some 5]⟩

/-- The input whose data table is at address 6. -/
def exampleInput : SharedInput := ⟨some 6⟩

/-- A memory like `exampleHeap` whose input table, at address 6, has one row. -/
def heapOneRowInput : TableHeap Int :=
  [rowTable .soa [7], rowTable .soa [1, 2], rowTable .soa [3, 4], rowTable .soa [5, 6],
   rowTable .aos [7, 8], rowTable .soa [9, 10], rowTable .soa [5, -6]]

/-- A store whose sum vector is the table at address 6. -/
def storeSumIsInput : SharedPartialResult :=
  ⟨[some 0, some 1, some 2, some 6, some 4, some 5]⟩

/-- A memory whose store tables, at the addresses 1 to 5, have three columns
while the input table, at address 6, has two. -/
def wideHeap : TableHeap Int :=
  [rowTable .soa [7], rowTable .soa [1, 2, 30], rowTable .soa [3, 4, 31],
   rowTable .soa [5, 6, 32], rowTable .soa [7, 8, 33], rowTable .soa [9, 10, 34],
   ⟨.soa, 2, 2, [[5, -6], [8, 9]]⟩]

/-- An input interface that reports `n` columns. -/
def inputWithColumns (n : Nat) : InputIface := ⟨(Status.empty, n)⟩

end low_order_moments
end algorithms
end daal

/-! ## Properties -/

namespace daal
namespace algorithms
namespace low_order_moments

open services

section Lemmas

variable {V : Type}

theorem Status.empty_add (s : Status) : Status.empty.add s = s := by
  cases s; rfl

theorem Status.ok_empty : Status.empty.ok = true := rfl

/-- A table check either passes with no failure or reports one failure under
its description. -/
theorem checkNumericTable_cases (p : NumericTablePtr V) (d : String) (u e : LayoutMask)
    (c r : Option Nat) :
    checkNumericTable p d u e c r = Status.empty ∨
      ∃ k, checkNumericTable p d u e c r = Status.fail k d := by
  unfold checkNumericTable
  cases p with
  | none => exact Or.inr ⟨_, rfl⟩
  | some t =>
    dsimp only
    split_ifs
    · exact Or.inr ⟨_, rfl⟩
    · exact Or.inr ⟨_, rfl⟩
    · exact Or.inr ⟨_, rfl⟩
    · exact Or.inr ⟨_, rfl⟩
    · exact Or.inl rfl

theorem checkNumericTable_ok_iff (p : NumericTablePtr V) (d : String) (u e : LayoutMask)
    (c r : Option Nat) :
    (checkNumericTable p d u e c r).ok = true ↔ checkNumericTable p d u e c r = Status.empty := by
  rcases checkNumericTable_cases p d u e c r with h | ⟨k, h⟩ <;> rw [h] <;> simp [Status.ok, Status.empty, Status.fail]

/-- A per-column vector passes its table check exactly when it is not malformed. -/
theorem vector_check_ok_iff (p : NumericTablePtr V) (d : String) (n : Nat) :
    (checkNumericTable p d packed_mask [] (some n) (some 1)).ok = true ↔ malformed p n = false := by
  cases p with
  | none => simp [checkNumericTable, malformed, Status.ok, Status.fail]
  | some t =>
    rcases t with ⟨l, c, r, rows⟩
    by_cases hc : c = n
    · subst hc
      by_cases hr : r = 1
      · subst hr
        cases l <;> simp [checkNumericTable, malformed, packed_mask, unsupportedLayout,
          StorageLayout.isPacked, Status.ok, Status.fail, Status.empty]
      · cases l <;> simp [checkNumericTable, malformed, packed_mask, unsupportedLayout,
          StorageLayout.isPacked, Status.ok, Status.fail, Status.empty, hr, Ne.symm hr]
    · cases l <;> by_cases hr : r = 1 <;>
        simp [checkNumericTable, malformed, packed_mask, unsupportedLayout,
          StorageLayout.isPacked, Status.ok, Status.fail, Status.empty, hc, Ne.symm hc]

theorem checkImplLoop_step (pr : PartialResult V) (n fuel i : Nat) :
    checkImplLoop pr n (fuel + 1) i Status.empty =
      if (vectorCheck pr n i).ok then checkImplLoop pr n fuel (i + 1) Status.empty
      else vectorCheck pr n i := by
  have h := checkNumericTable_ok_iff (pr.get i) (errorMessages.getD (i - 1) "") packed_mask []
    (some n) (some 1)
  rw [checkImplLoop]
  simp only [Status.empty_add]
  unfold vectorCheck
  generalize checkNumericTable (pr.get i) (errorMessages.getD (i - 1) "") packed_mask []
    (some n) (some 1) = c at h ⊢
  by_cases hok : c.ok = true
  · have hc := h.mp hok
    subst hc
    simp [Status.ok_empty]
  · simp [hok]

/-- The loop stops at the first vector whose table check fails and returns
that check's status. -/
theorem checkImplLoop_first_fail (pr : PartialResult V) (n : Nat) :
    ∀ (fuel i k : Nat), k < fuel →
      (∀ j, j < k → (vectorCheck pr n (i + j)).ok = true) →
      (vectorCheck pr n (i + k)).ok = false →
      checkImplLoop pr n fuel i Status.empty = vectorCheck pr n (i + k) := by
  intro fuel
  induction fuel with
  | zero => intro i k hk; omega
  | succ fuel ih =>
    intro i k hk hpre hbad
    rw [checkImplLoop_step]
    cases k with
    | zero => simp at hbad; simp [hbad]
    | succ k =>
      have h0 := hpre 0 (by omega)
      simp at h0
      rw [if_pos h0]
      have := ih (i + 1) k (by omega)
        (fun j hj => by have := hpre (j + 1) (by omega); rwa [show i + 1 + j = i + (j + 1) by omega])
        (by rwa [show i + 1 + k = i + (k + 1) by omega])
      rw [this, show i + 1 + k = i + (k + 1) by omega]

/-- The loop succeeds exactly when every vector it visits passes its check. -/
theorem checkImplLoop_ok_iff (pr : PartialResult V) (n : Nat) :
    ∀ (fuel i : Nat),
      (checkImplLoop pr n fuel i Status.empty).ok = true ↔
        ∀ j, j < fuel → (vectorCheck pr n (i + j)).ok = true := by
  intro fuel
  induction fuel with
  | zero => intro i; simp [checkImplLoop, Status.ok, Status.empty]
  | succ fuel ih =>
    intro i
    rw [checkImplLoop_step]
    by_cases h0 : (vectorCheck pr n i).ok = true
    · rw [if_pos h0, ih]
      constructor
      · intro h j hj
        cases j with
        | zero => simpa using h0
        | succ j => have := h j (by omega); rwa [show i + 1 + j = i + (j + 1) by omega] at this
      · intro h j hj
        have := h (j + 1) (by omega)
        rwa [show i + 1 + j = i + (j + 1) by omega]
    · rw [if_neg h0]
      constructor
      · intro h; exact absurd h h0
      · intro h; exact absurd (by simpa using h 0 (by omega)) h0

/-- A successful loop returns the empty status. -/
theorem checkImplLoop_eq_empty (pr : PartialResult V) (n : Nat) :
    ∀ (fuel i : Nat), (checkImplLoop pr n fuel i Status.empty).ok = true →
      checkImplLoop pr n fuel i Status.empty = Status.empty := by
  intro fuel
  induction fuel with
  | zero => intro i _; rfl
  | succ fuel ih =>
    intro i h
    rw [checkImplLoop_step] at h ⊢
    by_cases h0 : (vectorCheck pr n i).ok = true
    · rw [if_pos h0] at h ⊢; exact ih _ h
    · rw [if_neg h0] at h; exact absurd h h0

theorem errorMessages_eq_vectorLabel (i : Nat) (h1 : 1 ≤ i) (h : i < nPartialResults) :
    errorMessages.getD (i - 1) "" = vectorLabel i := by
  unfold nPartialResults at h
  interval_cases i <;> rfl

theorem vectorLabel_injective (i k : Nat) (hi : i < nPartialResults) (hk : k < nPartialResults)
    (h : vectorLabel i = vectorLabel k) : i = k := by
  unfold nPartialResults at hi hk
  interval_cases i <;> interval_cases k <;> first | rfl | (exact absurd h (by decide))

end Lemmas

end low_order_moments
end algorithms
end daal

namespace daal
namespace algorithms
namespace low_order_moments

open services

/-- The input-taking `check` with a passing count check and an input that
reports `n` columns is `checkImpl n`. -/
theorem check_eq_checkImpl {V : Type} (pr : PartialResult V) (input : InputIface) (n : Nat)
    (hin : input.getNumberOfColumns = (Status.empty, n))
    (hcount : (countCheck pr).ok = true) :
    pr.check input = pr.checkImpl n := by
  have hc : countCheck pr = Status.empty := (checkNumericTable_ok_iff _ _ _ _ _ _).mp hcount
  unfold countCheck at hc
  simp only [PartialResult.check, hin, Status.empty_add, hc, Status.ok_empty]
  rfl

/-- The parameter-only `check` with a passing count check and a set min
vector of supported layout is `checkImpl` at the min vector's column count. -/
theorem checkPar_eq_checkImpl {V : Type} (pr : PartialResult V) (t : NumericTable V)
    (hmin : pr.get partialMinimum = some t)
    (hlayout : unsupportedLayout t.layout = false)
    (hcount : (countCheck pr).ok = true) :
    pr.checkPar = pr.checkImpl t.nColumns := by
  have hc : countCheck pr = Status.empty := (checkNumericTable_ok_iff _ _ _ _ _ _).mp hcount
  unfold countCheck at hc
  have hm : checkNumericTable (some t) partialMinimumStr packed_mask [] none none
      = Status.empty := by
    rcases t with ⟨l, c, r, rows⟩
    cases l <;> simp_all [checkNumericTable, packed_mask, unsupportedLayout,
      StorageLayout.isPacked]
  simp only [PartialResult.checkPar, Status.empty_add, hc, Status.ok_empty, hmin, hm]
  rfl

/-- C1. Order-stop validation: when some per-column vector is malformed for
the expected feature count, `checkImpl` fails with exactly one failure, the
one of the first malformed vector in the order min, max, sum, sumSquares,
sumSquaresCentered, labelled with that vector's label and with no other; when
the count check passes, both `check` overloads report that same failure. -/
theorem checkImpl_reports_first_malformed {V : Type} (pr : PartialResult V)
    (nFeaturesExpected i : Nat) (hi1 : 1 ≤ i) (hi : i < nPartialResults)
    (hbad : malformed (pr.get i) nFeaturesExpected = true)
    (hfirst : ∀ j, 1 ≤ j → j < i → malformed (pr.get j) nFeaturesExpected = false) :
    ∃ e : Error,
      pr.checkImpl nFeaturesExpected = ⟨[e]⟩ ∧
      checkNumericTable (pr.get i) (vectorLabel i) packed_mask [] (some nFeaturesExpected)
        (some 1) = ⟨[e]⟩ ∧
      e.argumentName = vectorLabel i ∧
      (∀ k, k < nPartialResults → k ≠ i → e.argumentName ≠ vectorLabel k) ∧
      ((countCheck pr).ok = true →
        (∀ input : InputIface,
          input.getNumberOfColumns = (Status.empty, nFeaturesExpected) →
            pr.check input = ⟨[e]⟩) ∧
        ((∀ t, pr.get partialMinimum = some t → t.nColumns = nFeaturesExpected) →
          pr.checkPar = ⟨[e]⟩)) := by
  have hlabel := errorMessages_eq_vectorLabel i hi1 hi
  have hnotok : (vectorCheck pr nFeaturesExpected i).ok = false := by
    cases h : (vectorCheck pr nFeaturesExpected i).ok
    · rfl
    · have := (vector_check_ok_iff _ _ _).mp h
      rw [hbad] at this
      exact absurd this (by decide)
  have hpre : ∀ j, j < i - 1 → (vectorCheck pr nFeaturesExpected (1 + j)).ok = true := by
    intro j hj
    exact (vector_check_ok_iff _ _ _).mpr (hfirst (1 + j) (by omega) (by omega))
  have himpl : pr.checkImpl nFeaturesExpected = vectorCheck pr nFeaturesExpected i := by
    have := checkImplLoop_first_fail pr nFeaturesExpected (nPartialResults - 1) 1 (i - 1)
      (by omega) hpre (by rwa [show 1 + (i - 1) = i by omega])
    rw [show 1 + (i - 1) = i by omega] at this
    exact this
  have hvc : vectorCheck pr nFeaturesExpected i =
      checkNumericTable (pr.get i) (vectorLabel i) packed_mask [] (some nFeaturesExpected)
        (some 1) := by
    unfold vectorCheck; rw [hlabel]
  rcases checkNumericTable_cases (pr.get i) (vectorLabel i) packed_mask []
    (some nFeaturesExpected) (some 1) with h | ⟨k, h⟩
  · rw [hvc, h] at hnotok
    exact absurd hnotok (by decide)
  · refine ⟨⟨k, vectorLabel i⟩, ?_, h, rfl, ?_, ?_⟩
    · rw [himpl, hvc, h]; rfl
    · intro k' hk' hne heq
      exact hne (vectorLabel_injective i k' hi hk' heq).symm
    · intro hcount
      refine ⟨?_, ?_⟩
      · intro input hin
        rw [check_eq_checkImpl pr input nFeaturesExpected hin hcount, himpl, hvc, h]; rfl
      · intro hcols
        have hc : countCheck pr = Status.empty := (checkNumericTable_ok_iff _ _ _ _ _ _).mp hcount
        unfold countCheck at hc
        cases hmin : pr.get partialMinimum with
        | none =>
          have hi' : i = 1 := by
            by_contra hne
            have := hfirst 1 (le_refl 1) (by omega)
            rw [show (1 : Nat) = partialMinimum from rfl, hmin] at this
            simp [malformed] at this
          subst hi'
          rw [show (1 : Nat) = partialMinimum from rfl, hmin] at h
          simp only [PartialResult.checkPar, Status.empty_add, hc, Status.ok_empty, hmin]
          simp only [checkNumericTable] at h ⊢
          simp only [Status.fail, Status.mk.injEq, List.cons.injEq, Error.mk.injEq, and_true]
            at h
          subst h
          rfl
        | some t =>
          by_cases hl : unsupportedLayout t.layout = false
          · rw [checkPar_eq_checkImpl pr t hmin hl hcount, hcols t hmin, himpl, hvc, h]; rfl
          · have hl' : unsupportedLayout t.layout = true := by simpa using hl
            have hi' : i = 1 := by
              by_contra hne
              have := hfirst 1 (le_refl 1) (by omega)
              rw [show (1 : Nat) = partialMinimum from rfl, hmin] at this
              simp [malformed, hl'] at this
            subst hi'
            rw [show (1 : Nat) = partialMinimum from rfl, hmin] at h
            have hu : packed_mask.contains t.layout = true := by
              rcases t with ⟨l, c, r, rows⟩
              cases l <;> simp_all [packed_mask, unsupportedLayout, StorageLayout.isPacked]
            simp only [PartialResult.checkPar, Status.empty_add, hc, Status.ok_empty, hmin]
            simp only [checkNumericTable, hu, if_true] at h ⊢
            simp only [Status.fail, Status.mk.injEq, List.cons.injEq, Error.mk.injEq, and_true]
              at h
            subst h
            rfl

end low_order_moments
end algorithms
end daal

namespace daal
namespace algorithms
namespace low_order_moments

open services

/-- Witness of C1: in a store whose max vector is unset and whose sumSquares
vector has a wrong column count, the reported failure is the one of max. -/
theorem checkImpl_reports_first_malformed_witness :
    malformed (storeMaxUnset.get 2) 2 = true ∧
    malformed (storeMaxUnset.get 4) 2 = true ∧
    ∃ e : Error,
      storeMaxUnset.checkImpl 2 = ⟨[e]⟩ ∧
      checkNumericTable (storeMaxUnset.get 2) (vectorLabel 2) packed_mask [] (some 2)
        (some 1) = ⟨[e]⟩ ∧
      e.argumentName = vectorLabel 2 ∧
      (∀ k, k < nPartialResults → k ≠ 2 → e.argumentName ≠ vectorLabel k) ∧
      ((countCheck storeMaxUnset).ok = true →
        (∀ input : InputIface,
          input.getNumberOfColumns = (Status.empty, 2) →
            storeMaxUnset.check input = ⟨[e]⟩) ∧
        ((∀ t, storeMaxUnset.get partialMinimum = some t → t.nColumns = 2) →
          storeMaxUnset.checkPar = ⟨[e]⟩)) :=
  ⟨by decide, by decide,
    checkImpl_reports_first_malformed storeMaxUnset 2 2 (by decide) (by decide) (by decide)
      (by intro j h1 h2; interval_cases j; decide)⟩

/-- The count check passes exactly on a set 1x1 table that is not
compressed-sparse. -/
theorem countCheck_ok_iff {V : Type} (pr : PartialResult V) :
    (countCheck pr).ok = true ↔ countRejected (pr.get nObservations) = false := by
  unfold countCheck
  cases pr.get nObservations with
  | none => simp [checkNumericTable, countRejected, Status.ok, Status.fail]
  | some t =>
    rcases t with ⟨l, c, r, rows⟩
    by_cases hc : c = 1
    · subst hc
      by_cases hr : r = 1
      · subst hr
        cases l <;> simp [checkNumericTable, countRejected, csrArrayMask,
          Status.ok, Status.fail, Status.empty]
      · cases l <;> simp [checkNumericTable, countRejected, csrArrayMask,
          Status.ok, Status.fail, Status.empty, hr, Ne.symm hr]
    · cases l <;> by_cases hr : r = 1 <;>
        simp [checkNumericTable, countRejected, csrArrayMask,
          Status.ok, Status.fail, Status.empty, hc, Ne.symm hc]

/-- When the count check fails, both `check` overloads return the status of
the count check. -/
theorem check_of_countCheck_fail {V : Type} (pr : PartialResult V)
    (h : (countCheck pr).ok = false) :
    pr.checkPar = countCheck pr ∧
      ∀ input : InputIface, input.getNumberOfColumns.1.ok = true →
        pr.check input = countCheck pr := by
  unfold countCheck at h ⊢
  constructor
  · simp only [PartialResult.checkPar, Status.empty_add, h]
    rfl
  · intro input hin
    have hin' : input.getNumberOfColumns.1 = Status.empty := by
      cases hs : input.getNumberOfColumns.1 with
      | mk errs =>
        rw [hs] at hin
        cases errs with
        | nil => rfl
        | cons a l => simp [Status.ok] at hin
    simp only [PartialResult.check, hin', Status.empty_add, h, Status.ok_empty]
    rfl

/-- C2, counterexample: a count vector of packed layout (a layout the spec
does not accept) with one column and one row passes the count check, and the
failure both overloads report is the one of the unset min vector. -/
theorem count_first_counterexample :
    malformedCount (storePackedCountNoMin.get nObservations) = true ∧
    storePackedCountNoMin.checkPar = ⟨[⟨ErrorID.InvalidState, "min"⟩]⟩ ∧
    storePackedCountNoMin.check (inputWithColumns 2) = ⟨[⟨ErrorID.InvalidState, "min"⟩]⟩ := by
  decide

/-- C2, amended. The count vector is validated first: when the count vector
is unset, is not exactly 1 column by 1 row, or has the compressed-sparse
layout, both `check` overloads fail with exactly one failure, labelled
`nObservations`, whatever the five per-column vectors are (for the
input-taking overload, when the input's column count is obtained). -/
theorem count_checked_first {V : Type} (pr : PartialResult V)
    (hbad : countRejected (pr.get nObservations) = true) :
    ∃ e : Error, e.argumentName = vectorLabel nObservations ∧
      countCheck pr = ⟨[e]⟩ ∧
      pr.checkPar = ⟨[e]⟩ ∧
      (∀ input : InputIface, input.getNumberOfColumns.1.ok = true →
        pr.check input = ⟨[e]⟩) ∧
      (∀ pr2 : PartialResult V, pr2.get nObservations = pr.get nObservations →
        pr2.checkPar = ⟨[e]⟩ ∧
        ∀ input : InputIface, input.getNumberOfColumns.1.ok = true →
          pr2.check input = ⟨[e]⟩) := by
  have hnot : (countCheck pr).ok = false := by
    cases h : (countCheck pr).ok
    · rfl
    · have := (countCheck_ok_iff pr).mp h
      rw [hbad] at this
      exact absurd this (by decide)
  rcases checkNumericTable_cases (pr.get nObservations) nObservationsStr csrArrayMask []
    (some 1) (some 1) with h | ⟨k, h⟩
  · unfold countCheck at hnot
    rw [h] at hnot
    exact absurd hnot (by decide)
  · have hcc : countCheck pr = ⟨[⟨k, vectorLabel nObservations⟩]⟩ := h
    have h1 := check_of_countCheck_fail pr hnot
    refine ⟨⟨k, vectorLabel nObservations⟩, rfl, hcc, ?_, ?_, ?_⟩
    · rw [h1.1, hcc]
    · intro input hin
      rw [h1.2 input hin, hcc]
    · intro pr2 h2
      have hcc2 : countCheck pr2 = countCheck pr := by
        unfold countCheck; rw [h2]
      have hnot2 : (countCheck pr2).ok = false := by rw [hcc2]; exact hnot
      have h3 := check_of_countCheck_fail pr2 hnot2
      refine ⟨?_, ?_⟩
      · rw [h3.1, hcc2, hcc]
      · intro input hin
        rw [h3.2 input hin, hcc2, hcc]

/-- Witness of C2 (amended): a store whose count vector is compressed-sparse. -/
theorem count_checked_first_witness :
    countRejected (storeCsrCount.get nObservations) = true ∧
    ∃ e : Error, e.argumentName = vectorLabel nObservations ∧
      countCheck storeCsrCount = ⟨[e]⟩ ∧
      storeCsrCount.checkPar = ⟨[e]⟩ ∧
      (∀ input : InputIface, input.getNumberOfColumns.1.ok = true →
        storeCsrCount.check input = ⟨[e]⟩) ∧
      (∀ pr2 : PartialResult Int, pr2.get nObservations = storeCsrCount.get nObservations →
        pr2.checkPar = ⟨[e]⟩ ∧
        ∀ input : InputIface, input.getNumberOfColumns.1.ok = true →
          pr2.check input = ⟨[e]⟩) :=
  ⟨by decide, count_checked_first storeCsrCount (by decide)⟩

/-- The loop of `checkImpl` succeeds exactly when none of the five per-column
vectors is malformed. -/
theorem checkImpl_ok_iff {V : Type} (pr : PartialResult V) (n : Nat) :
    (pr.checkImpl n).ok = true ↔
      ∀ i, 1 ≤ i → i < nPartialResults → malformed (pr.get i) n = false := by
  unfold PartialResult.checkImpl
  rw [checkImplLoop_ok_iff]
  constructor
  · intro h i h1 h2
    have := h (i - 1) (by omega)
    rw [show 1 + (i - 1) = i by omega] at this
    exact (vector_check_ok_iff _ _ _).mp this
  · intro h j hj
    exact (vector_check_ok_iff _ _ _).mpr (h (1 + j) (by omega) (by unfold nPartialResults at *; omega))

theorem checkImpl_eq_empty {V : Type} (pr : PartialResult V) (n : Nat)
    (h : (pr.checkImpl n).ok = true) : pr.checkImpl n = Status.empty :=
  checkImplLoop_eq_empty pr n _ _ h

theorem Status.eq_empty_of_ok (s : Status) (h : s.ok = true) : s = Status.empty := by
  rcases s with ⟨errs⟩
  cases errs with
  | nil => rfl
  | cons a l => simp [Status.ok] at h

/-- The input-taking `check` succeeds exactly when the input's column count is
obtained, the count check passes and `checkImpl` succeeds. -/
theorem check_ok_iff {V : Type} (pr : PartialResult V) (input : InputIface) :
    (pr.check input).ok = true ↔
      input.getNumberOfColumns.1.ok = true ∧ (countCheck pr).ok = true ∧
        (pr.checkImpl input.getNumberOfColumns.2).ok = true := by
  by_cases hin : input.getNumberOfColumns.1.ok = true
  · have hin' := Status.eq_empty_of_ok _ hin
    by_cases hc : (countCheck pr).ok = true
    · have hc' := Status.eq_empty_of_ok _ hc
      have : pr.check input = pr.checkImpl input.getNumberOfColumns.2 := by
        unfold countCheck at hc'
        simp only [PartialResult.check, hin', Status.empty_add, hc', Status.ok_empty]
        rfl
      rw [this]; simp [hin, hc]
    · have hc2 : (countCheck pr).ok = false := by simpa using hc
      rw [(check_of_countCheck_fail pr hc2).2 input hin]
      simp [hc2]
  · have hin2 : input.getNumberOfColumns.1.ok = false := by simpa using hin
    have : pr.check input = input.getNumberOfColumns.1 := by
      simp only [PartialResult.check, Status.empty_add, hin2]
      rfl
    rw [this]; simp [hin2]

/-- The parameter-only `check` succeeds exactly when the count check passes,
the min vector is set with a supported layout and `checkImpl` succeeds for
the min vector's column count. -/
theorem checkPar_ok_iff {V : Type} (pr : PartialResult V) :
    pr.checkPar.ok = true ↔
      (countCheck pr).ok = true ∧
        ∃ t, pr.get partialMinimum = some t ∧ (pr.checkImpl t.nColumns).ok = true := by
  by_cases hc : (countCheck pr).ok = true
  · cases hmin : pr.get partialMinimum with
    | none =>
      have hc' := Status.eq_empty_of_ok _ hc
      unfold countCheck at hc'
      simp only [PartialResult.checkPar, Status.empty_add, hc', Status.ok_empty, hmin]
      simp [checkNumericTable, Status.ok, Status.fail]
    | some t =>
      by_cases hl : unsupportedLayout t.layout = false
      · rw [checkPar_eq_checkImpl pr t hmin hl hc]
        simp [hc]
      · have hl' : unsupportedLayout t.layout = true := by simpa using hl
        have hu : packed_mask.contains t.layout = true := by
          rcases t with ⟨l, c, r, rows⟩
          cases l <;> simp_all [packed_mask, unsupportedLayout, StorageLayout.isPacked]
        have hc' := Status.eq_empty_of_ok _ hc
        unfold countCheck at hc'
        have hbad : (pr.checkImpl t.nColumns).ok = false := by
          cases h : (pr.checkImpl t.nColumns).ok
          · rfl
          · have := (checkImpl_ok_iff pr t.nColumns).mp h 1 (le_refl 1) (by decide)
            rw [show (1 : Nat) = partialMinimum from rfl, hmin] at this
            simp [malformed, hl'] at this
        simp only [PartialResult.checkPar, Status.empty_add, hc', Status.ok_empty, hmin]
        have hu2 : t.layout ∈ packed_mask := by simpa using hu
        have hbad2 : ¬ (pr.checkImpl t.nColumns).errors = [] := by
          simpa [Status.ok] using hbad
        simp [checkNumericTable, hu2, Status.ok, Status.fail, hbad2]
  · have hc2 : (countCheck pr).ok = false := by simpa using hc
    rw [(check_of_countCheck_fail pr hc2).1]
    simp [hc2]

/-- C3. Soundness of validation: when `check`, with an input reporting
`nFeaturesExpected` columns (0 included), returns success, the count vector
has exactly 1 column and 1 row and each of the five per-column vectors has
exactly `nFeaturesExpected` columns and exactly 1 row. -/
theorem check_sound {V : Type} (pr : PartialResult V) (input : InputIface)
    (nFeaturesExpected : Nat)
    (hin : input.getNumberOfColumns = (Status.empty, nFeaturesExpected))
    (hok : (pr.check input).ok = true) :
    (∃ c, pr.get nObservations = some c ∧ c.nColumns = 1 ∧ c.nRows = 1) ∧
      ∀ i, 1 ≤ i → i < nPartialResults →
        ∃ t, pr.get i = some t ∧ t.nColumns = nFeaturesExpected ∧ t.nRows = 1 := by
  obtain ⟨-, hcount, himpl⟩ := (check_ok_iff pr input).mp hok
  rw [hin] at himpl
  constructor
  · have := (countCheck_ok_iff pr).mp hcount
    cases hc : pr.get nObservations with
    | none => rw [hc] at this; simp [countRejected] at this
    | some c =>
      rw [hc] at this
      simp [countRejected] at this
      exact ⟨c, rfl, this.1.1, this.1.2⟩
  · intro i h1 h2
    have := (checkImpl_ok_iff pr nFeaturesExpected).mp himpl i h1 h2
    cases ht : pr.get i with
    | none => rw [ht] at this; simp [malformed] at this
    | some t =>
      rw [ht] at this
      simp [malformed] at this
      exact ⟨t, rfl, this.1.1, this.1.2⟩

/-- Witness of C3: the valid store for two features. -/
theorem check_sound_witness :
    (validStore.check (inputWithColumns 2)).ok = true ∧
    ((∃ c, validStore.get nObservations = some c ∧ c.nColumns = 1 ∧ c.nRows = 1) ∧
      ∀ i, 1 ≤ i → i < nPartialResults →
        ∃ t, validStore.get i = some t ∧ t.nColumns = 2 ∧ t.nRows = 1) :=
  ⟨by decide, check_sound validStore (inputWithColumns 2) 2 rfl (by decide)⟩

/-- C4, counterexample: a store that is valid for two features except that
its count vector has a packed layout passes both `check` overloads. -/
theorem packed_count_counterexample :
    (∃ c, storePackedCount.get nObservations = some c ∧ c.layout.isPacked = true) ∧
    storePackedCount.check (inputWithColumns 2) = Status.empty ∧
    (storePackedCount.check (inputWithColumns 2)).ok = true ∧
    storePackedCount.checkPar = Status.empty :=
  ⟨⟨_, rfl, rfl⟩, by decide, by decide, by decide⟩

/-- C4, amended. Validation fails when the count vector has the
compressed-sparse layout or when any of the five per-column vectors has a
packed or compressed-sparse layout: then neither `check` overload returns
success. (A packed layout of the count vector is not among the layouts the
count check excludes.) -/
theorem unsupported_layout_rejected {V : Type} (pr : PartialResult V)
    (h : (∃ c, pr.get nObservations = some c ∧ c.layout = StorageLayout.csrArray) ∨
      ∃ i t, 1 ≤ i ∧ i < nPartialResults ∧ pr.get i = some t ∧
        unsupportedLayout t.layout = true) :
    pr.checkPar.ok = false ∧ ∀ input : InputIface, (pr.check input).ok = false := by
  have key : ∀ n, (countCheck pr).ok = true → (pr.checkImpl n).ok = true → False := by
    intro n hc hi
    rcases h with ⟨c, hget, hl⟩ | ⟨i, t, h1, h2, hget, hl⟩
    · have := (countCheck_ok_iff pr).mp hc
      rw [hget] at this
      simp [countRejected, hl] at this
    · have := (checkImpl_ok_iff pr n).mp hi i h1 h2
      rw [hget] at this
      simp [malformed, hl] at this
  constructor
  · cases hp : pr.checkPar.ok
    · rfl
    · obtain ⟨hc, t, -, hi⟩ := (checkPar_ok_iff pr).mp hp
      exact (key _ hc hi).elim
  · intro input
    cases hp : (pr.check input).ok
    · rfl
    · obtain ⟨-, hc, hi⟩ := (check_ok_iff pr input).mp hp
      exact (key _ hc hi).elim

/-- Witness of C4 (amended): a store whose count vector is compressed-sparse. -/
theorem unsupported_layout_rejected_witness :
    (∃ c, storeCsrCount.get nObservations = some c ∧ c.layout = StorageLayout.csrArray) ∧
    storeCsrCount.checkPar.ok = false ∧
    ∀ input : InputIface, (storeCsrCount.check input).ok = false :=
  ⟨⟨_, rfl, rfl⟩, unsupported_layout_rejected storeCsrCount (Or.inl ⟨_, rfl, rfl⟩)⟩

/-- C6. Completeness of validation: for `nFeaturesExpected >= 1`, when the
count vector is a dense allocated 1x1 table and each of the five per-column
vectors is a dense allocated table with `nFeaturesExpected` columns and 1 row,
`check` with an input reporting `nFeaturesExpected` columns returns the empty
status: success, no failure reported. -/
theorem check_complete {V : Type} (pr : PartialResult V) (input : InputIface)
    (nFeaturesExpected : Nat) (_hn : 1 ≤ nFeaturesExpected)
    (hin : input.getNumberOfColumns = (Status.empty, nFeaturesExpected))
    (hcount : denseAllocated (pr.get nObservations) 1 1 = true)
    (hvec : ∀ i, 1 ≤ i → i < nPartialResults →
      denseAllocated (pr.get i) nFeaturesExpected 1 = true) :
    pr.check input = Status.empty ∧ (pr.check input).ok = true ∧
      (pr.check input).errors = [] := by
  have hc : (countCheck pr).ok = true := by
    rw [countCheck_ok_iff]
    cases hg : pr.get nObservations with
    | none => rw [hg] at hcount; simp [denseAllocated] at hcount
    | some t =>
      rw [hg] at hcount
      rcases t with ⟨l, c, r, rows⟩
      cases l <;> simp_all [denseAllocated, allocated, countRejected, StorageLayout.isDense]
  have hi : (pr.checkImpl nFeaturesExpected).ok = true := by
    rw [checkImpl_ok_iff]
    intro i h1 h2
    have hv := hvec i h1 h2
    cases hg : pr.get i with
    | none => rw [hg] at hv; simp [denseAllocated] at hv
    | some t =>
      rw [hg] at hv
      rcases t with ⟨l, c, r, rows⟩
      cases l <;> simp_all [denseAllocated, allocated, malformed, StorageLayout.isDense,
        unsupportedLayout, StorageLayout.isPacked]
  have hok : (pr.check input).ok = true := by
    rw [check_ok_iff, hin]
    exact ⟨rfl, hc, hi⟩
  have he := Status.eq_empty_of_ok _ hok
  exact ⟨he, hok, by rw [he]; rfl⟩

/-- Witness of C6: the valid store for two features. -/
theorem check_complete_witness :
    denseAllocated (validStore.get nObservations) 1 1 = true ∧
    (∀ i, 1 ≤ i → i < nPartialResults → denseAllocated (validStore.get i) 2 1 = true) ∧
    (validStore.check (inputWithColumns 2) = Status.empty ∧
      (validStore.check (inputWithColumns 2)).ok = true ∧
      (validStore.check (inputWithColumns 2)).errors = []) :=
  ⟨by decide, by intro i h1 h2; unfold nPartialResults at h2; interval_cases i <;> decide,
    check_complete validStore (inputWithColumns 2) 2 (by decide) rfl (by decide)
      (by intro i h1 h2; unfold nPartialResults at h2; interval_cases i <;> decide)⟩

/-- C7. The method `getNumberOfColumns` returns the column count of the min
vector when the min vector is set and passes its table check, returns 0 when
the min vector is unset or fails its table check, and gives the same result
on any two stores with the same min vector. -/
theorem getNumberOfColumns_min {V : Type} (pr : PartialResult V) :
    (∀ t, pr.get partialMinimum = some t →
      (checkNumericTable (some t) partialMinimumStr [] [] none none).ok = true →
        pr.getNumberOfColumns = t.nColumns) ∧
    (pr.get partialMinimum = none → pr.getNumberOfColumns = 0) ∧
    ((checkNumericTable (pr.get partialMinimum) partialMinimumStr [] [] none none).ok = false →
      pr.getNumberOfColumns = 0) ∧
    (∀ pr2 : PartialResult V, pr2.get partialMinimum = pr.get partialMinimum →
      pr2.getNumberOfColumns = pr.getNumberOfColumns) := by
  refine ⟨?_, ?_, ?_, ?_⟩
  · intro t ht hok
    have ht' : Argument.get pr partialMinimum = some t := ht
    simp only [PartialResult.getNumberOfColumns, ht', hok, if_true]
  · intro hnone
    have ht' : Argument.get pr partialMinimum = none := hnone
    simp only [PartialResult.getNumberOfColumns, ht']
    rfl
  · intro hbad
    have hbad' : (checkNumericTable (Argument.get pr partialMinimum) partialMinimumStr [] []
        none none).ok = false := hbad
    simp only [PartialResult.getNumberOfColumns, hbad']
    rfl
  · intro pr2 h
    have h' : Argument.get pr2 partialMinimum = Argument.get pr partialMinimum := h
    simp only [PartialResult.getNumberOfColumns, h']

/-- Witness of C7: the valid store has the two columns of its min vector, the
freshly constructed store has none. -/
theorem getNumberOfColumns_min_witness :
    validStore.getNumberOfColumns = 2 ∧ (PartialResult.create Int).getNumberOfColumns = 0 :=
  ⟨(getNumberOfColumns_min validStore).1 (rowTable .soa [1, 2]) rfl (by decide),
    (getNumberOfColumns_min (PartialResult.create Int)).2.1 rfl⟩

/-- A failing loop of `checkImpl` returns the status of the check of one of
the vectors it visits, and that check has failed. -/
theorem checkImplLoop_fail_cases {V : Type} (pr : PartialResult V) (n : Nat) :
    ∀ (fuel i : Nat), (checkImplLoop pr n fuel i Status.empty).ok = false →
      ∃ k, k < fuel ∧ checkImplLoop pr n fuel i Status.empty = vectorCheck pr n (i + k) ∧
        (vectorCheck pr n (i + k)).ok = false := by
  intro fuel
  induction fuel with
  | zero => intro i h; simp [checkImplLoop, Status.ok, Status.empty] at h
  | succ fuel ih =>
    intro i h
    rw [checkImplLoop_step] at h ⊢
    by_cases h0 : (vectorCheck pr n i).ok = true
    · rw [if_pos h0] at h ⊢
      obtain ⟨k, hk, heq, hbad⟩ := ih (i + 1) h
      refine ⟨k + 1, by omega, ?_, ?_⟩
      · rw [heq, show i + 1 + k = i + (k + 1) by omega]
      · rwa [show i + 1 + k = i + (k + 1) by omega] at hbad
    · rw [if_neg h0] at h ⊢
      exact ⟨0, by omega, rfl, by simpa using h0⟩

/-- A failing `checkImpl` reports exactly one failure: the one of the check of
some per-column vector `i`, under the label of `i`. -/
theorem checkImpl_fail_cases {V : Type} (pr : PartialResult V) (n : Nat)
    (h : (pr.checkImpl n).ok = false) :
    ∃ i kind, 1 ≤ i ∧ i < nPartialResults ∧
      pr.checkImpl n = ⟨[⟨kind, vectorLabel i⟩]⟩ ∧
      vectorCheck pr n i = ⟨[⟨kind, vectorLabel i⟩]⟩ := by
  obtain ⟨k, hk, heq, hbad⟩ := checkImplLoop_fail_cases pr n _ _ h
  have hk' : k < 5 := hk
  have hi : 1 + k < nPartialResults := by unfold nPartialResults; omega
  have hl := errorMessages_eq_vectorLabel (1 + k) (by omega) hi
  rcases checkNumericTable_cases (pr.get (1 + k)) (vectorLabel (1 + k)) packed_mask []
    (some n) (some 1) with he | ⟨kind, he⟩
  · unfold vectorCheck at hbad
    rw [hl, he] at hbad
    exact absurd hbad (by decide)
  · have hv : vectorCheck pr n (1 + k) = ⟨[⟨kind, vectorLabel (1 + k)⟩]⟩ := by
      unfold vectorCheck; rw [hl, he]; rfl
    exact ⟨1 + k, kind, by omega, hi, by rw [← hv]; exact heq, hv⟩

/-- C8. Every validation failure names the offending vector by its own fixed
label: a failure reported by either `check` overload (the input's column count
being obtained) is the single failure of the table check of one vector `k`,
carries the label of `k`, and no other vector has that label. -/
theorem failure_names_offending_vector {V : Type} (pr : PartialResult V) (e : Error) :
    (∀ input : InputIface, input.getNumberOfColumns.1.ok = true →
      e ∈ (pr.check input).errors →
      ∃ k, k < nPartialResults ∧ e.argumentName = vectorLabel k ∧
        (∀ k2, k2 < nPartialResults → k2 ≠ k → e.argumentName ≠ vectorLabel k2) ∧
        (pr.check input).errors = [e] ∧
        ((k = nObservations ∧ countCheck pr = ⟨[e]⟩) ∨
          (1 ≤ k ∧ vectorCheck pr input.getNumberOfColumns.2 k = ⟨[e]⟩))) ∧
    (e ∈ pr.checkPar.errors →
      ∃ k, k < nPartialResults ∧ e.argumentName = vectorLabel k ∧
        (∀ k2, k2 < nPartialResults → k2 ≠ k → e.argumentName ≠ vectorLabel k2) ∧
        pr.checkPar.errors = [e] ∧
        ((k = nObservations ∧ countCheck pr = ⟨[e]⟩) ∨
          (k = partialMinimum ∧
            checkNumericTable (pr.get partialMinimum) partialMinimumStr packed_mask [] none
              none = ⟨[e]⟩) ∨
          (1 ≤ k ∧ ∃ t, pr.get partialMinimum = some t ∧
            vectorCheck pr t.nColumns k = ⟨[e]⟩))) := by
  have huniq : ∀ k, k < nPartialResults → ∀ k2, k2 < nPartialResults → k2 ≠ k →
      vectorLabel k ≠ vectorLabel k2 := by
    intro k hk k2 hk2 hne heq
    exact hne (vectorLabel_injective k k2 hk hk2 heq).symm
  have hcountfail : (countCheck pr).ok = false →
      ∃ kind, countCheck pr = ⟨[⟨kind, vectorLabel nObservations⟩]⟩ := by
    intro hc
    rcases checkNumericTable_cases (pr.get nObservations) nObservationsStr csrArrayMask []
      (some 1) (some 1) with h | ⟨kind, h⟩
    · unfold countCheck at hc; rw [h] at hc; exact absurd hc (by decide)
    · exact ⟨kind, h⟩
  constructor
  · intro input hin he
    by_cases hc : (countCheck pr).ok = true
    · have hin' := Status.eq_empty_of_ok _ hin
      have hprod : input.getNumberOfColumns = (Status.empty, input.getNumberOfColumns.2) := by
        rw [← hin']
      have heq := check_eq_checkImpl pr input _ hprod hc
      by_cases hi : (pr.checkImpl input.getNumberOfColumns.2).ok = true
      · rw [heq, checkImpl_eq_empty pr _ hi] at he
        simp [Status.empty] at he
      · obtain ⟨i, kind, h1, h2, himpl, hv⟩ :=
          checkImpl_fail_cases pr input.getNumberOfColumns.2 (by simpa using hi)
        rw [heq, himpl] at he
        simp only [List.mem_singleton] at he
        subst he
        refine ⟨i, h2, rfl, huniq i h2, ?_, Or.inr ⟨h1, hv⟩⟩
        rw [heq, himpl]
    · have hc2 : (countCheck pr).ok = false := by simpa using hc
      obtain ⟨kind, hk⟩ := hcountfail hc2
      have heq := (check_of_countCheck_fail pr hc2).2 input hin
      rw [heq, hk] at he
      simp only [List.mem_singleton] at he
      subst he
      refine ⟨nObservations, by decide, rfl, huniq _ (by decide), ?_, Or.inl ⟨rfl, hk⟩⟩
      rw [heq, hk]
  · intro he
    by_cases hc : (countCheck pr).ok = true
    · have hc' := Status.eq_empty_of_ok _ hc
      unfold countCheck at hc'
      cases hmin : pr.get partialMinimum with
      | none =>
        have hp : pr.checkPar = ⟨[⟨ErrorID.InvalidState, vectorLabel partialMinimum⟩]⟩ := by
          simp only [PartialResult.checkPar, Status.empty_add, hc', Status.ok_empty, hmin]
          rfl
        rw [hp] at he
        simp only [List.mem_singleton] at he
        subst he
        refine ⟨partialMinimum, by decide, rfl, huniq _ (by decide), by rw [hp],
          Or.inr (Or.inl ⟨rfl, rfl⟩)⟩
      | some t =>
        by_cases hl : unsupportedLayout t.layout = false
        · have heq := checkPar_eq_checkImpl pr t hmin hl hc
          by_cases hi : (pr.checkImpl t.nColumns).ok = true
          · rw [heq, checkImpl_eq_empty pr _ hi] at he
            simp [Status.empty] at he
          · obtain ⟨i, kind, h1, h2, himpl, hv⟩ :=
              checkImpl_fail_cases pr t.nColumns (by simpa using hi)
            rw [heq, himpl] at he
            simp only [List.mem_singleton] at he
            subst he
            refine ⟨i, h2, rfl, huniq i h2, by rw [heq, himpl], Or.inr (Or.inr ⟨h1, t, rfl, hv⟩)⟩
        · have hl' : unsupportedLayout t.layout = true := by simpa using hl
          have hu : packed_mask.contains t.layout = true := by
            rcases t with ⟨l, c, r, rows⟩
            cases l <;> simp_all [packed_mask, unsupportedLayout, StorageLayout.isPacked]
          have hm : checkNumericTable (some t) partialMinimumStr packed_mask [] none none =
              ⟨[⟨ErrorID.InvalidLayout, vectorLabel partialMinimum⟩]⟩ := by
            simp only [checkNumericTable, hu, if_true]
            rfl
          have hp : pr.checkPar = ⟨[⟨ErrorID.InvalidLayout, vectorLabel partialMinimum⟩]⟩ := by
            simp only [PartialResult.checkPar, Status.empty_add, hc', Status.ok_empty, hmin, hm]
            rfl
          rw [hp] at he
          simp only [List.mem_singleton] at he
          subst he
          refine ⟨partialMinimum, by decide, rfl, huniq _ (by decide), by rw [hp],
            Or.inr (Or.inl ⟨rfl, hm⟩)⟩
    · have hc2 : (countCheck pr).ok = false := by simpa using hc
      obtain ⟨kind, hk⟩ := hcountfail hc2
      have heq := (check_of_countCheck_fail pr hc2).1
      rw [heq, hk] at he
      simp only [List.mem_singleton] at he
      subst he
      refine ⟨nObservations, by decide, rfl, huniq _ (by decide), by rw [heq, hk],
        Or.inl ⟨rfl, hk⟩⟩

/-- Witness of C8: the failure reported for the store with an unset max
vector carries the label of max. -/
theorem failure_names_offending_vector_witness :
    (⟨ErrorID.InvalidState, "max"⟩ : Error) ∈ (storeMaxUnset.check (inputWithColumns 2)).errors ∧
    ∃ k, k < nPartialResults ∧ (⟨ErrorID.InvalidState, "max"⟩ : Error).argumentName = vectorLabel k ∧
      (∀ k2, k2 < nPartialResults → k2 ≠ k →
        (⟨ErrorID.InvalidState, "max"⟩ : Error).argumentName ≠ vectorLabel k2) ∧
      (storeMaxUnset.check (inputWithColumns 2)).errors = [⟨ErrorID.InvalidState, "max"⟩] ∧
      ((k = nObservations ∧ countCheck storeMaxUnset = ⟨[⟨ErrorID.InvalidState, "max"⟩]⟩) ∨
        (1 ≤ k ∧ vectorCheck storeMaxUnset (inputWithColumns 2).getNumberOfColumns.2 k =
          ⟨[⟨ErrorID.InvalidState, "max"⟩]⟩)) :=
  ⟨by decide,
    (failure_names_offending_vector storeMaxUnset ⟨ErrorID.InvalidState, "max"⟩).1
      (inputWithColumns 2) (by decide) (by decide)⟩

/-- C10, counterexample: on the freshly constructed store, `get` of the min
vector returns the empty pointer; it does not fail with `InvalidState`. -/
theorem get_unset_counterexample :
    (PartialResult.create Int).getCall partialMinimum = Except.ok none ∧
    (PartialResult.create Int).getCall partialMinimum ≠ Except.error ErrorID.InvalidState :=
  ⟨rfl, fun h => by cases h⟩

/-- C10, amended. For every vector kind, `get` on a store that has never been
initialized returns the empty table pointer and reports no failure; that the
vector is unset is reported when the pointer is handed to a table check, which
fails with `InvalidState` under the given label. -/
theorem get_unset_returns_empty (V : Type) (id : PartialResultId) :
    (PartialResult.create V).getCall id = Except.ok none ∧
    (PartialResult.create V).get id = none ∧
    ∀ (d : String) (u e : LayoutMask) (c r : Option Nat),
      checkNumericTable ((PartialResult.create V).get id) d u e c r =
        Status.fail ErrorID.InvalidState d := by
  have h : (PartialResult.create V).get id = none := by
    unfold PartialResult.get Argument.get PartialResult.create Argument.create
    by_cases hid : id < nPartialResults
    · simp [List.getD_eq_getElem?_getD, List.getElem?_replicate, hid]
    · simp [List.getD_eq_getElem?_getD, List.getElem?_replicate, hid]
  refine ⟨?_, h, ?_⟩
  · unfold PartialResult.getCall; rw [h]
  · intro d u e c r
    rw [h]
    rfl

/-! ### Default initialization -/

theorem Argument.get_set_eq {V : Type} (a : Argument V) (i : Nat) (p : NumericTablePtr V)
    (h : i < a.storage.length) : (a.set i p).get i = p := by
  unfold Argument.get Argument.set
  simp [List.getD_eq_getElem?_getD, h]

theorem Argument.get_set_ne {V : Type} (a : Argument V) (i k : Nat) (p : NumericTablePtr V)
    (h : k ≠ i) : (a.set i p).get k = a.get k := by
  unfold Argument.get Argument.set
  simp [List.getD_eq_getElem?_getD, List.getElem?_set_ne (Ne.symm h)]

/-- The zero-filling loop runs to its end when the buffer is long enough; it
writes 0 at the positions `j .. j + fuel - 1` and leaves the others. -/
theorem fillZero_spec {V : Type} [Zero V] :
    ∀ (fuel j : Nat) (buf : List V), j + fuel ≤ buf.length →
      ∃ out, fillZero fuel j buf = some out ∧ out.length = buf.length ∧
        (∀ m, j ≤ m → m < j + fuel → out.get? m = some 0) ∧
        (∀ m, (m < j ∨ j + fuel ≤ m) → out.get? m = buf.get? m) := by
  intro fuel
  induction fuel with
  | zero =>
    intro j buf _
    exact ⟨buf, rfl, rfl, fun m h1 h2 => by omega, fun m _ => rfl⟩
  | succ fuel ih =>
    intro j buf hlen
    have hj : j < buf.length := by omega
    obtain ⟨out, hout, hl, hz, hf⟩ := ih (j + 1) (buf.set j 0) (by simp; omega)
    refine ⟨out, ?_, ?_, ?_, ?_⟩
    · simp only [fillZero, hj, if_true]; exact hout
    · simpa using hl
    · intro m h1 h2
      by_cases hm : m = j
      · subst hm
        rw [hf m (Or.inl (by omega))]
        simp [hj]
      · exact hz m (by omega) (by omega)
    · intro m hm
      rw [hf m (by omega)]
      simp [List.getElem?_set_ne (show j ≠ m by omega)]

/-- The copying loop runs to its end when both buffers are long enough; it
writes the values of the first row at the positions `j .. j + fuel - 1` and
leaves the others. -/
theorem copyFirstRow_spec {V : Type} (firstRow : List V) :
    ∀ (fuel j : Nat) (buf : List V), j + fuel ≤ buf.length → j + fuel ≤ firstRow.length →
      ∃ out, copyFirstRow firstRow fuel j buf = some out ∧ out.length = buf.length ∧
        (∀ m, j ≤ m → m < j + fuel → out.get? m = firstRow.get? m) ∧
        (∀ m, (m < j ∨ j + fuel ≤ m) → out.get? m = buf.get? m) := by
  intro fuel
  induction fuel with
  | zero =>
    intro j buf _ _
    exact ⟨buf, rfl, rfl, fun m h1 h2 => by omega, fun m _ => rfl⟩
  | succ fuel ih =>
    intro j buf hlen hlen2
    have hj : j < buf.length := by omega
    have hj2 : j < firstRow.length := by omega
    obtain ⟨out, hout, hl, hz, hf⟩ :=
      ih (j + 1) (buf.set j (firstRow.get ⟨j, hj2⟩)) (by simp; omega) (by omega)
    have hget : firstRow.get? j = some (firstRow.get ⟨j, hj2⟩) := List.get?_eq_get hj2
    refine ⟨out, ?_, ?_, ?_, ?_⟩
    · simp only [copyFirstRow, hget, hj, if_true]; exact hout
    · simpa using hl
    · intro m h1 h2
      by_cases hm : m = j
      · subst hm
        rw [hf m (Or.inl (by omega)), hget]
        simp [hj]
      · exact hz m (by omega) (by omega)
    · intro m hm
      rw [hf m (by omega)]
      simp [List.getElem?_set_ne (show j ≠ m by omega)]

theorem allocated_first_row {V : Type} (p : NumericTablePtr V) (c r : Nat)
    (h : allocated p c r = true) (hr : 1 ≤ r) :
    ∃ t row, p = some t ∧ t.nColumns = c ∧ t.rows.get? 0 = some row ∧ row.length = c := by
  cases p with
  | none => simp [allocated] at h
  | some t =>
    simp only [allocated, Bool.and_eq_true, beq_iff_eq, List.all_eq_true] at h
    obtain ⟨⟨⟨hc, -⟩, hlen⟩, hall⟩ := h
    cases hrows : t.rows with
    | nil => rw [hrows] at hlen; simp at hlen; omega
    | cons row rest =>
      refine ⟨t, row, rfl, hc, by rw [hrows]; rfl, ?_⟩
      exact hall row (by rw [hrows]; simp)

/-! ### Access to the vectors -/

/-- The constructor builds a store with one slot per identifier. -/
theorem PartialResult.create_length (V : Type) :
    (PartialResult.create V).storage.length = nPartialResults := by
  simp [PartialResult.create, Argument.create]

/-- C11. The setter replaces exactly one vector: on a store with its
`nPartialResults` slots (as the constructor builds it) and for a kind `k`,
after `set(k, v)` the accessor returns `v` for `k` and, for every other kind,
what it returned before; the store keeps its slots. -/
theorem set_replaces_one_vector {V : Type} (pr : PartialResult V) (k : PartialResultId)
    (v : NumericTablePtr V) (hk : k < nPartialResults)
    (hslots : pr.storage.length = nPartialResults) :
    (pr.set k v).get k = v ∧
    (∀ k2 : PartialResultId, k2 ≠ k → (pr.set k v).get k2 = pr.get k2) ∧
    (pr.set k v).storage.length = nPartialResults := by
  refine ⟨?_, ?_, ?_⟩
  · exact Argument.get_set_eq pr k v (by rw [hslots]; exact hk)
  · intro k2 hne
    exact Argument.get_set_ne pr k k2 v hne
  · simp [PartialResult.set, Argument.set, hslots]

/-- Witness of C11: the sum vector of the valid store is replaced. -/
theorem set_replaces_one_vector_witness :
    validStore.storage.length = nPartialResults ∧
    (validStore.set partialSum (some (rowTable .aos [0, 0]))).get partialSum =
      some (rowTable .aos [0, 0]) ∧
    (∀ k2 : PartialResultId, k2 ≠ partialSum →
      (validStore.set partialSum (some (rowTable .aos [0, 0]))).get k2 = validStore.get k2) ∧
    (validStore.set partialSum (some (rowTable .aos [0, 0]))).storage.length =
      nPartialResults :=
  ⟨by decide,
    set_replaces_one_vector validStore partialSum (some (rowTable .aos [0, 0])) (by decide)
      (by decide)⟩

/-- C12. Store shape invariant enforced by the parameter-only check: when
`check(parameter, method)` returns success, the count vector is 1x1 and each
of the five per-column vectors has exactly one row and the same column count,
the one `getNumberOfColumns()` returns, which is the min vector's. -/
theorem checkPar_shape_invariant {V : Type} (pr : PartialResult V)
    (hok : pr.checkPar.ok = true) :
    (∃ c, pr.get nObservations = some c ∧ c.nColumns = 1 ∧ c.nRows = 1) ∧
    (∃ tmin, pr.get partialMinimum = some tmin ∧ pr.getNumberOfColumns = tmin.nColumns) ∧
    ∀ i, 1 ≤ i → i < nPartialResults →
      ∃ t, pr.get i = some t ∧ t.nColumns = pr.getNumberOfColumns ∧ t.nRows = 1 := by
  obtain ⟨hcount, tmin, hmin, himpl⟩ := (checkPar_ok_iff pr).mp hok
  have hcols : pr.getNumberOfColumns = tmin.nColumns := by
    have hmin2 : Argument.get pr partialMinimum = some tmin := hmin
    simp only [PartialResult.getNumberOfColumns, hmin2]
    rfl
  refine ⟨?_, ⟨tmin, hmin, hcols⟩, ?_⟩
  · have := (countCheck_ok_iff pr).mp hcount
    cases hc : pr.get nObservations with
    | none => rw [hc] at this; simp [countRejected] at this
    | some c =>
      rw [hc] at this
      simp [countRejected] at this
      exact ⟨c, rfl, this.1.1, this.1.2⟩
  · intro i h1 h2
    have := (checkImpl_ok_iff pr tmin.nColumns).mp himpl i h1 h2
    cases ht : pr.get i with
    | none => rw [ht] at this; simp [malformed] at this
    | some t =>
      rw [ht] at this
      simp [malformed] at this
      exact ⟨t, rfl, by rw [hcols]; exact this.1.1, this.1.2⟩

/-- Witness of C12: the valid store for two features. -/
theorem checkPar_shape_invariant_witness :
    validStore.checkPar.ok = true ∧
    (∃ c, validStore.get nObservations = some c ∧ c.nColumns = 1 ∧ c.nRows = 1) ∧
    (∃ tmin, validStore.get partialMinimum = some tmin ∧
      validStore.getNumberOfColumns = tmin.nColumns) ∧
    ∀ i, 1 ≤ i → i < nPartialResults →
      ∃ t, validStore.get i = some t ∧ t.nColumns = validStore.getNumberOfColumns ∧
        t.nRows = 1 :=
  ⟨by decide, checkPar_shape_invariant validStore (by decide)⟩

/-- C14. The two `check` overloads agree: on a store whose min vector is set
and for an input whose column count is obtained and equals the min vector's
column count, `check(input, parameter, method)` and `check(parameter, method)`
return the same status. -/
theorem check_overloads_agree {V : Type} (pr : PartialResult V) (input : InputIface)
    (t : NumericTable V) (hmin : pr.get partialMinimum = some t)
    (hin : input.getNumberOfColumns = (Status.empty, t.nColumns)) :
    pr.check input = pr.checkPar := by
  by_cases hc : (countCheck pr).ok = true
  · rw [check_eq_checkImpl pr input t.nColumns hin hc]
    by_cases hl : unsupportedLayout t.layout = false
    · rw [checkPar_eq_checkImpl pr t hmin hl hc]
    · have hl2 : unsupportedLayout t.layout = true := by simpa using hl
      have hu : packed_mask.contains t.layout = true := by
        rcases t with ⟨l, c, r, rows⟩
        cases l <;> simp_all [packed_mask, unsupportedLayout, StorageLayout.isPacked]
      have hc2 := Status.eq_empty_of_ok _ hc
      unfold countCheck at hc2
      have hm : checkNumericTable (some t) partialMinimumStr packed_mask [] none none =
          Status.fail ErrorID.InvalidLayout partialMinimumStr := by
        simp only [checkNumericTable, hu, if_true]
      have hpar : pr.checkPar = Status.fail ErrorID.InvalidLayout partialMinimumStr := by
        simp only [PartialResult.checkPar, Status.empty_add, hc2, Status.ok_empty, hmin, hm]
        rfl
      have hv : vectorCheck pr t.nColumns 1 =
          Status.fail ErrorID.InvalidLayout partialMinimumStr := by
        unfold vectorCheck
        rw [show (1 : Nat) = partialMinimum from rfl, hmin]
        simp only [checkNumericTable, hu, if_true]
        rfl
      have himpl : pr.checkImpl t.nColumns = vectorCheck pr t.nColumns 1 := by
        have := checkImplLoop_first_fail pr t.nColumns (nPartialResults - 1) 1 0 (by decide)
          (fun j hj => by omega) (by rw [Nat.add_zero, hv]; rfl)
        exact this
      rw [himpl, hv, hpar]
  · have hc2 : (countCheck pr).ok = false := by simpa using hc
    have h := check_of_countCheck_fail pr hc2
    rw [h.1, h.2 input (by rw [hin]; rfl)]

/-- Witness of C14: on the store with an unset max vector both overloads
report the failure of max. -/
theorem check_overloads_agree_witness :
    storeMaxUnset.get partialMinimum = some (rowTable .soa [1, 2]) ∧
    storeMaxUnset.check (inputWithColumns 2) = storeMaxUnset.checkPar :=
  ⟨rfl, check_overloads_agree storeMaxUnset (inputWithColumns 2) (rowTable .soa [1, 2]) rfl rfl⟩

/-! ### Accesses of the parameter-only check -/

/-- The instrumented loop of `checkImpl` computes the status of the loop. -/
theorem checkImplLoopSteps_snd {V : Type} (pr : PartialResult V) (n : Nat) :
    ∀ (fuel i : Nat) (s : Status),
      (checkImplLoopSteps pr n fuel i s).2 = checkImplLoop pr n fuel i s := by
  intro fuel
  induction fuel with
  | zero => intro i s; rfl
  | succ fuel ih =>
    intro i s
    simp only [checkImplLoopSteps, checkImplLoop]
    split_ifs
    · rfl
    · exact ih _ _

/-- The loop of `checkImpl` hands vectors to table checks and does nothing
else with them. -/
theorem checkImplLoopSteps_fst {V : Type} (pr : PartialResult V) (n : Nat) :
    ∀ (fuel i : Nat) (s : Status) (a : Access),
      a ∈ (checkImplLoopSteps pr n fuel i s).1 →
        ∃ k, i ≤ k ∧ k < i + fuel ∧ a = Access.tableCheck k := by
  intro fuel
  induction fuel with
  | zero => intro i s a h; simp [checkImplLoopSteps] at h
  | succ fuel ih =>
    intro i s a h
    simp only [checkImplLoopSteps] at h
    split_ifs at h
    · simp only [List.mem_singleton] at h
      exact ⟨i, le_refl i, by omega, h⟩
    · simp only [List.mem_cons] at h
      rcases h with h | h
      · exact ⟨i, le_refl i, by omega, h⟩
      · obtain ⟨k, h1, h2, h3⟩ := ih _ _ _ h
        exact ⟨k, by omega, by omega, h3⟩

/-- The table check of the min vector passes only on a set vector. -/
theorem minCheck_ok_set {V : Type} (pr : PartialResult V) (h : (minCheck pr).ok = true) :
    ∃ t, pr.get partialMinimum = some t := by
  unfold minCheck at h
  cases hg : pr.get partialMinimum with
  | none => rw [hg] at h; simp [checkNumericTable, Status.ok, Status.fail] at h
  | some t => exact ⟨t, rfl⟩

/-- The three ways the parameter-only `check` can go. -/
theorem checkParSteps_cases {V : Type} (pr : PartialResult V) :
    ((countCheck pr).ok = false ∧
      pr.checkParSteps = some ([Access.tableCheck nObservations], countCheck pr) ∧
      pr.checkPar = countCheck pr) ∨
    ((countCheck pr).ok = true ∧ (minCheck pr).ok = false ∧
      pr.checkParSteps =
        some ([Access.tableCheck nObservations, Access.tableCheck partialMinimum],
          minCheck pr) ∧
      pr.checkPar = minCheck pr) ∨
    ((countCheck pr).ok = true ∧ (minCheck pr).ok = true ∧
      ∃ t, pr.get partialMinimum = some t ∧
        pr.checkParSteps =
          some ([Access.tableCheck nObservations, Access.tableCheck partialMinimum,
            Access.columnCount partialMinimum] ++
              (checkImplLoopSteps pr t.nColumns (nPartialResults - 1) 1 Status.empty).1,
            pr.checkImpl t.nColumns) ∧
        pr.checkPar = pr.checkImpl t.nColumns) := by
  by_cases hc : (countCheck pr).ok = true
  · have hc2 := Status.eq_empty_of_ok _ hc
    by_cases hm : (minCheck pr).ok = true
    · have hm2 := Status.eq_empty_of_ok _ hm
      obtain ⟨t, ht⟩ := minCheck_ok_set pr hm
      refine Or.inr (Or.inr ⟨hc, hm, t, ht, ?_, ?_⟩)
      · unfold countCheck at hc2
        unfold minCheck at hm2
        rw [ht] at hm2
        simp only [PartialResult.checkParSteps, Status.empty_add, hc2, ht, hm2, Status.ok_empty,
          checkImplLoopSteps_snd]
        rfl
      · unfold countCheck at hc2
        unfold minCheck at hm2
        rw [ht] at hm2
        simp only [PartialResult.checkPar, Status.empty_add, hc2, ht, hm2, Status.ok_empty]
        rfl
    · have hm2 : (minCheck pr).ok = false := by simpa using hm
      refine Or.inr (Or.inl ⟨hc, hm2, ?_, ?_⟩)
      · unfold countCheck at hc2
        unfold minCheck at hm2 ⊢
        simp only [PartialResult.checkParSteps, Status.empty_add, hc2, hm2, Status.ok_empty]
        rfl
      · unfold countCheck at hc2
        unfold minCheck at hm2 ⊢
        simp only [PartialResult.checkPar, Status.empty_add, hc2, hm2, Status.ok_empty]
        rfl
  · have hc2 : (countCheck pr).ok = false := by simpa using hc
    refine Or.inl ⟨hc2, ?_, ?_⟩
    · unfold countCheck at hc2 ⊢
      simp only [PartialResult.checkParSteps, Status.empty_add, hc2]
      rfl
    · exact (check_of_countCheck_fail pr hc2).1

/-- C15, counterexample: on the freshly constructed store the min vector is
unset, yet the failure the parameter-only `check` returns is labelled with the
count vector, not with the min vector. -/
theorem unset_min_label_counterexample :
    (PartialResult.create Int).get partialMinimum = none ∧
    (PartialResult.create Int).checkPar = ⟨[⟨ErrorID.InvalidState, "nObservations"⟩]⟩ ∧
    ∀ e ∈ (PartialResult.create Int).checkPar.errors,
      e.argumentName ≠ vectorLabel partialMinimum := by
  decide

/-- C15, amended. The parameter-only `check` never reads an unset vector: the
call is defined on every store; the column count is read only from the min
vector and only after the count vector and the min vector have passed their
table checks, the min vector being set then; when the min vector is unset the
call fails without reaching the read, with the failure of the min vector when
the count check passes and with the count failure otherwise; `checkImpl` only
hands the vectors to table checks and fails when it meets an unset one. -/
theorem checkPar_reads_only_checked {V : Type} (pr : PartialResult V) :
    (∃ tr, pr.checkParSteps = some (tr, pr.checkPar)) ∧
    (∀ tr s, pr.checkParSteps = some (tr, s) → ∀ k, Access.columnCount k ∈ tr →
      k = partialMinimum ∧ (countCheck pr).ok = true ∧ (minCheck pr).ok = true ∧
      (∃ t, pr.get partialMinimum = some t) ∧
      ∃ rest, tr = [Access.tableCheck nObservations, Access.tableCheck partialMinimum,
          Access.columnCount partialMinimum] ++ rest ∧
        ∀ a ∈ rest, ∃ i, a = Access.tableCheck i) ∧
    (pr.get partialMinimum = none →
      pr.checkPar.ok = false ∧
      (∀ tr s, pr.checkParSteps = some (tr, s) → ∀ k, Access.columnCount k ∉ tr) ∧
      ((countCheck pr).ok = true →
        pr.checkPar = ⟨[⟨ErrorID.InvalidState, vectorLabel partialMinimum⟩]⟩) ∧
      ((countCheck pr).ok = false → pr.checkPar = countCheck pr)) ∧
    (∀ n a, a ∈ (checkImplLoopSteps pr n (nPartialResults - 1) 1 Status.empty).1 →
      ∃ i, 1 ≤ i ∧ i < nPartialResults ∧ a = Access.tableCheck i) ∧
    (∀ n i, 1 ≤ i → i < nPartialResults → pr.get i = none →
      (pr.checkImpl n).ok = false) := by
  have hloop : ∀ n a, a ∈ (checkImplLoopSteps pr n (nPartialResults - 1) 1 Status.empty).1 →
      ∃ i, 1 ≤ i ∧ i < nPartialResults ∧ a = Access.tableCheck i := by
    intro n a ha
    obtain ⟨k, h1, h2, h3⟩ := checkImplLoopSteps_fst pr n _ _ _ a ha
    exact ⟨k, h1, by unfold nPartialResults at *; omega, h3⟩
  refine ⟨?_, ?_, ?_, hloop, ?_⟩
  · rcases checkParSteps_cases pr with ⟨-, h1, h2⟩ | ⟨-, -, h1, h2⟩ | ⟨-, -, t, -, h1, h2⟩
    · exact ⟨_, by rw [h1, h2]⟩
    · exact ⟨_, by rw [h1, h2]⟩
    · exact ⟨_, by rw [h1, h2]⟩
  · intro tr s hsteps k hk
    rcases checkParSteps_cases pr with ⟨-, h1, -⟩ | ⟨-, -, h1, -⟩ | ⟨hc, hm, t, ht, h1, -⟩
    · rw [h1] at hsteps
      simp only [Option.some.injEq, Prod.mk.injEq] at hsteps
      rw [← hsteps.1] at hk
      simp at hk
    · rw [h1] at hsteps
      simp only [Option.some.injEq, Prod.mk.injEq] at hsteps
      rw [← hsteps.1] at hk
      simp at hk
    · rw [h1] at hsteps
      simp only [Option.some.injEq, Prod.mk.injEq] at hsteps
      rw [← hsteps.1] at hk
      have hkmin : k = partialMinimum := by
        simp only [List.cons_append, List.nil_append, List.mem_cons] at hk
        rcases hk with hk | hk | hk | hk
        · cases hk
        · cases hk
        · cases hk; rfl
        · obtain ⟨i, -, -, hi⟩ := hloop _ _ hk
          cases hi
      refine ⟨hkmin, hc, hm, ⟨t, ht⟩, _, hsteps.1.symm, ?_⟩
      intro a ha
      obtain ⟨i, -, -, hi⟩ := hloop _ _ ha
      exact ⟨i, hi⟩
  · intro hnone
    have hmbad : (minCheck pr).ok = false := by
      unfold minCheck; rw [hnone]; rfl
    rcases checkParSteps_cases pr with ⟨hc, h1, h2⟩ | ⟨hc, hm, h1, h2⟩ | ⟨-, hm, -⟩
    · refine ⟨by rw [h2]; exact hc, ?_, ?_, ?_⟩
      · intro tr s hsteps k hk
        rw [h1] at hsteps
        simp only [Option.some.injEq, Prod.mk.injEq] at hsteps
        rw [← hsteps.1] at hk
        simp at hk
      · intro hc2; rw [hc] at hc2; exact absurd hc2 (by decide)
      · intro _; exact h2
    · refine ⟨by rw [h2]; exact hm, ?_, ?_, ?_⟩
      · intro tr s hsteps k hk
        rw [h1] at hsteps
        simp only [Option.some.injEq, Prod.mk.injEq] at hsteps
        rw [← hsteps.1] at hk
        simp at hk
      · intro _
        rw [h2]
        unfold minCheck
        rw [hnone]
        rfl
      · intro hc2; rw [hc] at hc2; exact absurd hc2 (by decide)
    · rw [hmbad] at hm; exact absurd hm (by decide)
  · intro n i h1 h2 hnone
    cases hok : (pr.checkImpl n).ok
    · rfl
    · have := (checkImpl_ok_iff pr n).mp hok i h1 h2
      rw [hnone] at this
      simp [malformed] at this

/-- Witness of C15 (amended): on a store whose count vector is valid and whose
min vector is unset the call fails with the failure of min and the column
count is not read. -/
theorem checkPar_reads_only_checked_witness :
    storeMinUnset.get partialMinimum = none ∧
    (countCheck storeMinUnset).ok = true ∧
    storeMinUnset.checkPar = ⟨[⟨ErrorID.InvalidState, vectorLabel partialMinimum⟩]⟩ ∧
    storeMinUnset.checkPar.ok = false :=
  ⟨rfl, by decide,
    (checkPar_reads_only_checked storeMinUnset).2.2.1 rfl |>.2.2.1 (by decide),
    (checkPar_reads_only_checked storeMinUnset).2.2.1 rfl |>.1⟩

/-! ### Frame of default initialization -/

/-- When the zero-filling loop runs to its end, the buffer keeps its length
and its values outside the positions `j .. j + fuel - 1`. -/
theorem fillZero_frame {V : Type} [Zero V] :
    ∀ (fuel j : Nat) (buf out : List V), fillZero fuel j buf = some out →
      out.length = buf.length ∧
        ∀ m, (m < j ∨ j + fuel ≤ m) → out.get? m = buf.get? m := by
  intro fuel
  induction fuel with
  | zero =>
    intro j buf out h
    simp only [fillZero, Option.some.injEq] at h
    subst h
    exact ⟨rfl, fun m _ => rfl⟩
  | succ fuel ih =>
    intro j buf out h
    simp only [fillZero] at h
    split_ifs at h with hj
    obtain ⟨hl, hf⟩ := ih (j + 1) _ out h
    refine ⟨by simpa using hl, ?_⟩
    intro m hm
    rw [hf m (by omega)]
    simp [List.getElem?_set_ne (show j ≠ m by omega)]

/-- When the copying loop runs to its end, the buffer keeps its length and its
values outside the positions `j .. j + fuel - 1`. -/
theorem copyFirstRow_frame {V : Type} (firstRow : List V) :
    ∀ (fuel j : Nat) (buf out : List V), copyFirstRow firstRow fuel j buf = some out →
      out.length = buf.length ∧
        ∀ m, (m < j ∨ j + fuel ≤ m) → out.get? m = buf.get? m := by
  intro fuel
  induction fuel with
  | zero =>
    intro j buf out h
    simp only [copyFirstRow, Option.some.injEq] at h
    subst h
    exact ⟨rfl, fun m _ => rfl⟩
  | succ fuel ih =>
    intro j buf out h
    simp only [copyFirstRow] at h
    cases hx : firstRow.get? j with
    | none => rw [hx] at h; simp at h
    | some x =>
      rw [hx] at h
      dsimp only at h
      split_ifs at h with hj
      obtain ⟨hl, hf⟩ := ih (j + 1) _ out h
      refine ⟨by simpa using hl, ?_⟩
      intro m hm
      rw [hf m (by omega)]
      simp [List.getElem?_set_ne (show j ≠ m by omega)]

/-- Storing back a first row that differs from the old one only in the columns
below `n` keeps the shape of the table and every value outside those columns
of the first row. -/
theorem release_frame {V : Type} (t : NumericTable V) (row block : List V) (n : Nat)
    (hrow : t.rows.get? 0 = some row)
    (hf : ∀ m, n ≤ m → block.get? m = row.get? m) :
    tableShape (some (releaseBlockOfRows t 0 ReadWriteMode.writeOnly block)) =
        tableShape (some t) ∧
      ∀ r j, ¬ (r = 0 ∧ j < n) →
        tableEntry (some (releaseBlockOfRows t 0 ReadWriteMode.writeOnly block)) r j =
          tableEntry (some t) r j := by
  refine ⟨rfl, ?_⟩
  intro r j hrj
  have hlen : 0 < t.rows.length := by
    cases hr : t.rows with
    | nil => rw [hr] at hrow; simp at hrow
    | cons a l => simp
  by_cases hr0 : r = 0
  · subst hr0
    have hj : n ≤ j := by
      by_contra hlt
      exact hrj ⟨rfl, by omega⟩
    have h1 : (t.rows.set 0 block).get? 0 = some block := by simp [hlen]
    simp only [tableEntry, releaseBlockOfRows, h1, hrow]
    exact hf j hj
  · have h1 : (t.rows.set 0 block).get? r = t.rows.get? r := by
      simp [List.getElem?_set_ne (show 0 ≠ r by omega)]
    simp only [tableEntry, releaseBlockOfRows, h1]

/-- A table check looks at the shape of the table only. -/
theorem checkNumericTable_congr {V : Type} (p q : NumericTablePtr V)
    (h : tableShape p = tableShape q) (d : String) (u e : LayoutMask) (c r : Option Nat) :
    checkNumericTable p d u e c r = checkNumericTable q d u e c r := by
  cases p with
  | none =>
    cases q with
    | none => rfl
    | some t => simp [tableShape] at h
  | some t =>
    cases q with
    | none => simp [tableShape] at h
    | some t2 =>
      simp only [tableShape, Option.some.injEq, Prod.mk.injEq] at h
      obtain ⟨h1, h2, h3⟩ := h
      simp only [checkNumericTable, h1, h2, h3]

theorem checkImplLoop_congr {V : Type} (a b : PartialResult V)
    (h : ∀ k : Nat, tableShape (a.get k) = tableShape (b.get k)) (n : Nat) :
    ∀ (fuel i : Nat) (s : Status),
      checkImplLoop a n fuel i s = checkImplLoop b n fuel i s := by
  intro fuel
  induction fuel with
  | zero => intro i s; rfl
  | succ fuel ih =>
    intro i s
    simp only [checkImplLoop]
    rw [checkNumericTable_congr (a.get i) (b.get i) (h i)]
    split_ifs
    · rfl
    · exact ih _ _

/-- Two stores whose vectors have the same shapes get the same status from
both `check` overloads. -/
theorem check_congr {V : Type} (a b : PartialResult V)
    (h : ∀ k : Nat, tableShape (a.get k) = tableShape (b.get k)) :
    (∀ input : InputIface, a.check input = b.check input) ∧ a.checkPar = b.checkPar := by
  have himpl : ∀ n, a.checkImpl n = b.checkImpl n := by
    intro n
    exact checkImplLoop_congr a b h n _ _ _
  constructor
  · intro input
    simp only [PartialResult.check]
    rw [checkNumericTable_congr (a.get nObservations) (b.get nObservations) (h nObservations),
      himpl]
  · simp only [PartialResult.checkPar]
    rw [checkNumericTable_congr (a.get nObservations) (b.get nObservations) (h nObservations),
      checkNumericTable_congr (a.get partialMinimum) (b.get partialMinimum) (h partialMinimum)]
    have hmin := h partialMinimum
    cases ha : a.get partialMinimum with
    | none =>
      cases hb : b.get partialMinimum with
      | none => rfl
      | some t => rw [ha, hb] at hmin; simp [tableShape] at hmin
    | some t =>
      cases hb : b.get partialMinimum with
      | none => rw [ha, hb] at hmin; simp [tableShape] at hmin
      | some t2 =>
        rw [ha, hb] at hmin
        simp only [tableShape, Option.some.injEq, Prod.mk.injEq] at hmin
        dsimp only
        rw [hmin.2.1, himpl]

/-! ### Default initialization on shared tables -/

theorem heap_get_lt {V : Type} (h : TableHeap V) (a : Nat) (t : NumericTable V)
    (hget : h.get? a = some t) : a < h.length := by
  by_contra hlt
  rw [List.get?_eq_getElem?, List.getElem?_eq_none (by omega)] at hget
  simp at hget

theorem heap_get_set_same {V : Type} (h : TableHeap V) (a : Nat) (t : NumericTable V)
    (ha : a < h.length) : (h.set a t).get? a = some t := by
  simp [ha]

theorem heap_get_set_other {V : Type} (h : TableHeap V) (a b : Nat) (t : NumericTable V)
    (hne : a ≠ b) : (h.set a t).get? b = h.get? b := by
  simp [List.getElem?_set_ne hne]

theorem heap_set_self {V : Type} :
    ∀ (h : TableHeap V) (a : Nat) (t : NumericTable V), h.get? a = some t → h.set a t = h := by
  intro h
  induction h with
  | nil => intro a t _; rfl
  | cons x xs ih =>
    intro a t hget
    cases a with
    | zero =>
      simp only [List.get?_cons_zero, Option.some.injEq] at hget
      subst hget
      rfl
    | succ a =>
      simp only [List.get?_cons_succ] at hget
      simp only [List.set_cons_succ, ih a t hget]

/-- The view of a store gives, under each identifier, the table its pointer
points to. -/
theorem view_get {V : Type} (pres : SharedPartialResult) (h : TableHeap V) (k : Nat) :
    (pres.view h).get k = deref h (pres.get k) := by
  unfold SharedPartialResult.view SharedPartialResult.get PartialResult.get Argument.get
  simp only [List.getD_eq_getElem?_getD, List.getElem?_map]
  cases pres.slots[k]? with
  | none => rfl
  | some p => rfl

/-- Storing back a first row of the same length keeps the shape of the table,
the length of its first row and every value outside the columns below `n` of
the first row. -/
theorem release_keeps {V : Type} (t : NumericTable V) (row block : List V) (n : Nat)
    (hrow : t.rows.get? 0 = some row) (hlen : block.length = row.length)
    (hf : ∀ m, n ≤ m → block.get? m = row.get? m) :
    tableShape (some (releaseBlockOfRows t 0 ReadWriteMode.writeOnly block)) =
        tableShape (some t) ∧
      (∀ m, hasFirstRow (some (releaseBlockOfRows t 0 ReadWriteMode.writeOnly block)) m =
        hasFirstRow (some t) m) ∧
      ∀ r j, ¬ (r = 0 ∧ j < n) →
        tableEntry (some (releaseBlockOfRows t 0 ReadWriteMode.writeOnly block)) r j =
          tableEntry (some t) r j := by
  have hpos : 0 < t.rows.length := by
    cases hr : t.rows with
    | nil => rw [hr] at hrow; simp at hrow
    | cons a l => simp
  have h1 : (t.rows.set 0 block).get? 0 = some block := by simp [hpos]
  refine ⟨rfl, ?_, (release_frame t row block n hrow hf).2⟩
  intro m
  simp only [hasFirstRow, releaseBlockOfRows, h1, hrow, hlen]

/-- One iteration of the loop over the per-column vectors: the block written
for the slot `i`. -/
theorem written_block {V : Type} [Zero V] (firstRow row : List V) (nColumns i : Nat)
    (hrow : nColumns ≤ row.length) (hfr : nColumns ≤ firstRow.length) :
    ∃ block,
      (if i = partialMinimum ∨ i = partialMaximum then
          copyFirstRow firstRow nColumns 0 row
        else fillZero nColumns 0 row) = some block ∧
      block.length = row.length ∧
      (∀ j, j < nColumns → block.get? j =
        if i = partialMinimum ∨ i = partialMaximum then firstRow.get? j else some 0) ∧
      ∀ m, nColumns ≤ m → block.get? m = row.get? m := by
  by_cases hc : i = partialMinimum ∨ i = partialMaximum
  · obtain ⟨b, hb, hl, hv, hf⟩ :=
      copyFirstRow_spec firstRow nColumns 0 row (by omega) (by omega)
    refine ⟨b, by rw [if_pos hc]; exact hb, hl, ?_, ?_⟩
    · intro j hj
      rw [if_pos hc]
      exact hv j (by omega) (by omega)
    · intro m hm
      exact hf m (Or.inr (by omega))
  · obtain ⟨b, hb, hl, hv, hf⟩ := fillZero_spec (V := V) nColumns 0 row (by omega)
    refine ⟨b, by rw [if_neg hc]; exact hb, hl, ?_, ?_⟩
    · intro j hj
      rw [if_neg hc]
      exact hv j (by omega) (by omega)
    · intro m hm
      exact hf m (Or.inr (by omega))

/-- Whatever block an iteration writes has the length of the row it was
acquired from and the values of that row from column `nColumns` on. -/
theorem written_block_frame {V : Type} [Zero V] (firstRow row block : List V)
    (nColumns i : Nat)
    (hw : (if i = partialMinimum ∨ i = partialMaximum then
          copyFirstRow firstRow nColumns 0 row
        else fillZero nColumns 0 row) = some block) :
    block.length = row.length ∧ ∀ m, nColumns ≤ m → block.get? m = row.get? m := by
  by_cases hc : i = partialMinimum ∨ i = partialMaximum
  · rw [if_pos hc] at hw
    have := copyFirstRow_frame firstRow nColumns 0 row block hw
    exact ⟨this.1, fun m hm => this.2 m (Or.inr (by omega))⟩
  · rw [if_neg hc] at hw
    have := fillZero_frame nColumns 0 row block hw
    exact ⟨this.1, fun m hm => this.2 m (Or.inr (by omega))⟩

/-- What an iteration of the loop over the per-column vectors that ends has
done. -/
theorem initEstimates_step {V : Type} [Zero V] (firstRow : List V) (nColumns : Nat)
    (pres : SharedPartialResult) (fuel i : Nat) (h out : TableHeap V)
    (events : List BlockEvent)
    (hrun : initEstimates firstRow nColumns pres (fuel + 1) i h = some (out, events)) :
    ∃ a t row block rest,
      pres.get i = some a ∧ h.get? a = some t ∧ t.rows.get? 0 = some row ∧
      (if i = partialMinimum ∨ i = partialMaximum then
          copyFirstRow firstRow nColumns 0 row
        else fillZero nColumns 0 row) = some block ∧
      initEstimates firstRow nColumns pres fuel (i + 1)
        (h.set a (releaseBlockOfRows t 0 ReadWriteMode.writeOnly block)) = some (out, rest) ∧
      events = BlockEvent.acquire (TableRef.store i) ReadWriteMode.writeOnly ::
        BlockEvent.release (TableRef.store i) :: rest := by
  simp only [initEstimates] at hrun
  cases hget : pres.get i with
  | none => rw [hget] at hrun; simp at hrun
  | some a =>
    rw [hget] at hrun
    dsimp only at hrun
    cases ht : h.get? a with
    | none => rw [ht] at hrun; simp at hrun
    | some t =>
      rw [ht] at hrun
      dsimp only at hrun
      cases hrow : getBlockOfRows t 0 with
      | none => rw [hrow] at hrun; simp at hrun
      | some row =>
        rw [hrow] at hrun
        dsimp only at hrun
        cases hw : (if i = partialMinimum ∨ i = partialMaximum then
            copyFirstRow firstRow nColumns 0 row
          else fillZero nColumns 0 row) with
        | none => rw [hw] at hrun; simp at hrun
        | some block =>
          rw [hw] at hrun
          dsimp only at hrun
          cases hrec : initEstimates firstRow nColumns pres fuel (i + 1)
              (h.set a (releaseBlockOfRows t 0 ReadWriteMode.writeOnly block)) with
          | none => rw [hrec] at hrun; simp at hrun
          | some r =>
            rw [hrec] at hrun
            rcases r with ⟨o, rest⟩
            simp only [Option.some.injEq, Prod.mk.injEq] at hrun
            refine ⟨a, t, row, block, rest, rfl, ht, hrow, hw, ?_, hrun.2.symm⟩
            rw [hrec, hrun.1]

/-- When the loop over the per-column vectors runs to its end, it has made the
adapter calls `loopEvents`, every table keeps its shape and the length of its
first row, a table that no visited slot points to is as before, and the only
values that may differ are those of the first row, in the columns below
`nColumns`, of the tables that the visited slots point to. -/
theorem initEstimates_keeps {V : Type} [Zero V] (firstRow : List V) (nColumns : Nat)
    (pres : SharedPartialResult) :
    ∀ (fuel i : Nat) (h out : TableHeap V) (events : List BlockEvent),
      initEstimates firstRow nColumns pres fuel i h = some (out, events) →
      events = loopEvents fuel i ∧
      ∀ a : Nat,
        tableShape (out.get? a) = tableShape (h.get? a) ∧
        (∀ m, hasFirstRow (out.get? a) m = hasFirstRow (h.get? a) m) ∧
        (∀ r j, ¬ (r = 0 ∧ j < nColumns ∧
            ∃ k, i ≤ k ∧ k < i + fuel ∧ pres.get k = some a) →
          tableEntry (out.get? a) r j = tableEntry (h.get? a) r j) ∧
        ((∀ k, i ≤ k → k < i + fuel → pres.get k ≠ some a) → out.get? a = h.get? a) := by
  intro fuel
  induction fuel with
  | zero =>
    intro i h out events hrun
    simp only [initEstimates, Option.some.injEq, Prod.mk.injEq] at hrun
    obtain ⟨h1, h2⟩ := hrun
    subst h1
    subst h2
    exact ⟨rfl, fun a => ⟨rfl, fun m => rfl, fun r j _ => rfl, fun _ => rfl⟩⟩
  | succ fuel ih =>
    intro i h out events hrun
    obtain ⟨a, t, row, block, rest, hget, ht, hrow, hw, hrec, hev⟩ :=
      initEstimates_step firstRow nColumns pres fuel i h out events hrun
    obtain ⟨hrest, hframe⟩ := ih (i + 1) _ out rest hrec
    obtain ⟨hblen, hbf⟩ := written_block_frame firstRow row block nColumns i hw
    have hrel := release_keeps t row block nColumns hrow hblen hbf
    have halt : a < h.length := heap_get_lt h a t ht
    refine ⟨by rw [hev, hrest]; rfl, ?_⟩
    intro b
    obtain ⟨hs, hl, he, hu⟩ := hframe b
    by_cases hb : b = a
    · subst hb
      have hset := heap_get_set_same h b (releaseBlockOfRows t 0 ReadWriteMode.writeOnly block)
        halt
      refine ⟨?_, ?_, ?_, ?_⟩
      · rw [hs, hset, ht]; exact hrel.1
      · intro m; rw [hl m, hset, ht]; exact hrel.2.1 m
      · intro r j hrj
        rw [he r j (by
          intro hh
          obtain ⟨h1, h2, k, h3, h4, h5⟩ := hh
          exact hrj ⟨h1, h2, k, by omega, by omega, h5⟩), hset, ht]
        exact hrel.2.2 r j (by
          intro hh
          exact hrj ⟨hh.1, hh.2, i, le_refl i, by omega, hget⟩)
      · intro hnot
        exact absurd hget (hnot i (le_refl i) (by omega))
    · have hset := heap_get_set_other h a b
        (releaseBlockOfRows t 0 ReadWriteMode.writeOnly block) (Ne.symm hb)
      refine ⟨?_, ?_, ?_, ?_⟩
      · rw [hs, hset]
      · intro m; rw [hl m, hset]
      · intro r j hrj
        rw [he r j (by
          intro hh
          obtain ⟨h1, h2, k, h3, h4, h5⟩ := hh
          exact hrj ⟨h1, h2, k, by omega, by omega, h5⟩), hset]
      · intro hnot
        rw [hu (fun k h1 h2 => hnot k (by omega) (by omega)), hset]

theorem hasFirstRow_elim {V : Type} (p : NumericTablePtr V) (n : Nat)
    (hp : hasFirstRow p n = true) :
    ∃ t row, p = some t ∧ t.rows.get? 0 = some row ∧ n ≤ row.length := by
  cases p with
  | none => exact absurd hp (by simp [hasFirstRow])
  | some t =>
    cases hrow : t.rows.get? 0 with
    | none =>
      have : hasFirstRow (some t) n = false := by simp only [hasFirstRow, hrow]
      rw [this] at hp
      cases hp
    | some row =>
      have : hasFirstRow (some t) n = decide (n ≤ row.length) := by
        simp only [hasFirstRow, hrow]
      rw [this] at hp
      exact ⟨t, row, rfl, hrow, of_decide_eq_true hp⟩

theorem hasFirstRow_intro {V : Type} (t : NumericTable V) (row : List V) (n : Nat)
    (hrow : t.rows.get? 0 = some row) (hn : n ≤ row.length) :
    hasFirstRow (some t) n = true := by
  simp only [hasFirstRow, hrow]
  exact decide_eq_true hn

/-- The loop over the per-column vectors runs to its end when every slot it
visits points to a table with a first row of at least `nColumns` values and
the first row of the input has at least `nColumns` values. The slots may share
tables. -/
theorem initEstimates_runs {V : Type} [Zero V] (firstRow : List V) (nColumns : Nat)
    (pres : SharedPartialResult) (hfr : nColumns ≤ firstRow.length) :
    ∀ (fuel i : Nat) (h : TableHeap V),
      (∀ k, i ≤ k → k < i + fuel → hasFirstRow (deref h (pres.get k)) nColumns = true) →
      ∃ r, initEstimates firstRow nColumns pres fuel i h = some r := by
  intro fuel
  induction fuel with
  | zero => intro i h _; exact ⟨(h, []), rfl⟩
  | succ fuel ih =>
    intro i h hvec
    obtain ⟨t, row, hp, hrow, hlen⟩ := hasFirstRow_elim _ _ (hvec i (le_refl i) (by omega))
    cases hget : pres.get i with
    | none => rw [hget] at hp; simp [deref] at hp
    | some a =>
      rw [hget] at hp
      have ht : h.get? a = some t := hp
      obtain ⟨block, hw, hblen, -, hbf⟩ := written_block firstRow row nColumns i hlen hfr
      have hrel := release_keeps t row block nColumns hrow hblen hbf
      have halt : a < h.length := heap_get_lt h a t ht
      have hnext : ∀ k, i + 1 ≤ k → k < i + 1 + fuel →
          hasFirstRow (deref (h.set a (releaseBlockOfRows t 0 ReadWriteMode.writeOnly
            block)) (pres.get k)) nColumns = true := by
        intro k h1 h2
        have hk := hvec k (by omega) (by omega)
        cases hgk : pres.get k with
        | none => rw [hgk] at hk; exact absurd hk (by simp [deref, hasFirstRow])
        | some b =>
          rw [hgk] at hk
          by_cases hb : b = a
          · subst hb
            have hk2 : hasFirstRow (some t) nColumns = true := by
              have : deref h (some b) = some t := ht
              rw [this] at hk
              exact hk
            have : deref (h.set b (releaseBlockOfRows t 0 ReadWriteMode.writeOnly block))
                (some b) = some (releaseBlockOfRows t 0 ReadWriteMode.writeOnly block) :=
              heap_get_set_same h b _ halt
            rw [this, hrel.2.1 nColumns]
            exact hk2
          · have : deref (h.set a (releaseBlockOfRows t 0 ReadWriteMode.writeOnly block))
                (some b) = deref h (some b) :=
              heap_get_set_other h a b _ (Ne.symm hb)
            rw [this]
            exact hk
      obtain ⟨r, hr⟩ := ih (i + 1) _ hnext
      refine ⟨(r.1, BlockEvent.acquire (TableRef.store i) ReadWriteMode.writeOnly ::
        BlockEvent.release (TableRef.store i) :: r.2), ?_⟩
      simp only [initEstimates, hget, ht, getBlockOfRows, hrow, hw, hr]

/-- One write of a first row into a table of the memory keeps the shape of
every table and the length of every first row, leaves the other tables as they
are and changes in the written table at most the first row, in the columns
below `n`. -/
theorem heap_write_keeps {V : Type} (h : TableHeap V) (a : Nat) (t : NumericTable V)
    (row block : List V) (n : Nat) (ht : h.get? a = some t)
    (hrow : t.rows.get? 0 = some row) (hlen : block.length = row.length)
    (hf : ∀ m, n ≤ m → block.get? m = row.get? m) (b : Nat) :
    tableShape ((h.set a (releaseBlockOfRows t 0 ReadWriteMode.writeOnly block)).get? b) =
        tableShape (h.get? b) ∧
      (∀ m, hasFirstRow ((h.set a (releaseBlockOfRows t 0 ReadWriteMode.writeOnly
          block)).get? b) m = hasFirstRow (h.get? b) m) ∧
      (∀ r j, ¬ (r = 0 ∧ j < n ∧ b = a) →
        tableEntry ((h.set a (releaseBlockOfRows t 0 ReadWriteMode.writeOnly block)).get? b)
          r j = tableEntry (h.get? b) r j) ∧
      (b ≠ a →
        (h.set a (releaseBlockOfRows t 0 ReadWriteMode.writeOnly block)).get? b =
          h.get? b) := by
  have hrel := release_keeps t row block n hrow hlen hf
  have halt : a < h.length := heap_get_lt h a t ht
  by_cases hb : b = a
  · subst hb
    have hset := heap_get_set_same h b (releaseBlockOfRows t 0 ReadWriteMode.writeOnly block)
      halt
    refine ⟨by rw [hset, ht]; exact hrel.1, fun m => by rw [hset, ht]; exact hrel.2.1 m, ?_,
      fun hne => absurd rfl hne⟩
    intro r j hrj
    rw [hset, ht]
    exact hrel.2.2 r j (fun hh => hrj ⟨hh.1, hh.2, rfl⟩)
  · have hset := heap_get_set_other h a b
      (releaseBlockOfRows t 0 ReadWriteMode.writeOnly block) (Ne.symm hb)
    exact ⟨by rw [hset], fun m => by rw [hset], fun r j _ => by rw [hset], fun _ => hset⟩

/-- What a default initialization that ends has done: the count write, the
first row read from the input, the loop over the per-column vectors. The
release of the read-only input block leaves the memory as the loop left it. -/
theorem DefaultPartialResultInit_step {V : Type} [Zero V] (h out : TableHeap V)
    (input : SharedInput) (pres : SharedPartialResult) (events : List BlockEvent)
    (hrun : DefaultPartialResultInit h input pres = some (out, events)) :
    ∃ a0 t0 row0 ain inTable firstRow rest,
      pres.get nObservations = some a0 ∧ h.get? a0 = some t0 ∧
      t0.rows.get? 0 = some row0 ∧ 0 < row0.length ∧
      input.data = some ain ∧
      (h.set a0 (releaseBlockOfRows t0 0 ReadWriteMode.writeOnly (row0.set 0 0))).get? ain =
        some inTable ∧
      inTable.rows.get? 0 = some firstRow ∧
      initEstimates firstRow inTable.nColumns pres (nPartialResults - 1) 1
        (h.set a0 (releaseBlockOfRows t0 0 ReadWriteMode.writeOnly (row0.set 0 0))) =
        some (out, rest) ∧
      events = [BlockEvent.acquire (TableRef.store nObservations) ReadWriteMode.writeOnly,
        BlockEvent.release (TableRef.store nObservations),
        BlockEvent.acquire TableRef.input ReadWriteMode.readOnly] ++ rest ++
        [BlockEvent.release TableRef.input] := by
  simp only [DefaultPartialResultInit] at hrun
  cases hget : pres.get nObservations with
  | none => rw [hget] at hrun; simp at hrun
  | some a0 =>
    rw [hget] at hrun
    dsimp only at hrun
    cases ht : h.get? a0 with
    | none => rw [ht] at hrun; simp at hrun
    | some t0 =>
      rw [ht] at hrun
      dsimp only at hrun
      cases hrow : getBlockOfRows t0 0 with
      | none => rw [hrow] at hrun; simp at hrun
      | some row0 =>
        rw [hrow] at hrun
        dsimp only at hrun
        split_ifs at hrun with hpos
        cases hdata : input.data with
        | none => rw [hdata] at hrun; simp at hrun
        | some ain =>
          rw [hdata] at hrun
          dsimp only at hrun
          cases hin : (h.set a0 (releaseBlockOfRows t0 0 ReadWriteMode.writeOnly
              (row0.set 0 0))).get? ain with
          | none => rw [hin] at hrun; simp at hrun
          | some inTable =>
            rw [hin] at hrun
            dsimp only at hrun
            cases hfirst : getBlockOfRows inTable 0 with
            | none => rw [hfirst] at hrun; simp at hrun
            | some firstRow =>
              rw [hfirst] at hrun
              dsimp only at hrun
              have hn : ((SharedInput.view (⟨some ain⟩ : SharedInput)
                  (h.set a0 (releaseBlockOfRows t0 0 ReadWriteMode.writeOnly
                    (row0.set 0 0)))).getNumberOfColumns 0).2 = inTable.nColumns := by
                simp only [SharedInput.view, deref, hin, Input.getNumberOfColumns]
              have hdata2 : input = ⟨some ain⟩ := by
                cases input
                simp only at hdata
                rw [hdata]
              rw [hdata2, hn] at hrun
              cases hloop : initEstimates firstRow inTable.nColumns pres
                  (nPartialResults - 1) 1
                  (h.set a0 (releaseBlockOfRows t0 0 ReadWriteMode.writeOnly
                    (row0.set 0 0))) with
              | none => rw [hloop] at hrun; simp at hrun
              | some r =>
                rw [hloop] at hrun
                rcases r with ⟨h2, rest⟩
                dsimp only at hrun
                cases hin2 : h2.get? ain with
                | none => rw [hin2] at hrun; simp at hrun
                | some inTable2 =>
                  rw [hin2] at hrun
                  simp only [Option.some.injEq, Prod.mk.injEq] at hrun
                  have hout : h2 = out := by
                    rw [← hrun.1]
                    exact (heap_set_self h2 ain _ hin2).symm
                  subst hout
                  exact ⟨a0, t0, row0, ain, inTable, firstRow, rest, rfl, ht, hrow, hpos,
                    rfl, hin, hfirst, hloop, hrun.2.symm⟩

theorem tableShape_some_eq {V : Type} (p : NumericTablePtr V) (t : NumericTable V)
    (h : tableShape p = tableShape (some t)) :
    ∃ t2, p = some t2 ∧ t2.layout = t.layout ∧ t2.nColumns = t.nColumns ∧
      t2.nRows = t.nRows := by
  cases p with
  | none => simp [tableShape] at h
  | some t2 =>
    simp only [tableShape, Option.some.injEq, Prod.mk.injEq] at h
    exact ⟨t2, rfl, h.1, h.2.1, h.2.2⟩

/-- The column count that the input reports depends on the shape of its table
only. -/
theorem input_columns_congr {V : Type} (p q : NumericTablePtr V)
    (h : tableShape p = tableShape q) (c : Nat) :
    ((⟨p⟩ : Input V).getNumberOfColumns c).2 = ((⟨q⟩ : Input V).getNumberOfColumns c).2 := by
  cases q with
  | none =>
    cases p with
    | none => rfl
    | some t => simp [tableShape] at h
  | some t =>
    obtain ⟨t2, hp, -, hc, -⟩ := tableShape_some_eq p t h
    subst hp
    simp only [Input.getNumberOfColumns, hc]

/-- The count write: zero at entry 0 of the first row of the count table. -/
theorem count_write_keeps {V : Type} [Zero V] (h : TableHeap V) (a0 : Nat)
    (t0 : NumericTable V) (row0 : List V) (ht : h.get? a0 = some t0)
    (hrow : t0.rows.get? 0 = some row0) (b : Nat) :
    tableShape ((h.set a0 (releaseBlockOfRows t0 0 ReadWriteMode.writeOnly
        (row0.set 0 0))).get? b) = tableShape (h.get? b) ∧
      (∀ m, hasFirstRow ((h.set a0 (releaseBlockOfRows t0 0 ReadWriteMode.writeOnly
          (row0.set 0 0))).get? b) m = hasFirstRow (h.get? b) m) ∧
      (∀ r j, ¬ (r = 0 ∧ j < 1 ∧ b = a0) →
        tableEntry ((h.set a0 (releaseBlockOfRows t0 0 ReadWriteMode.writeOnly
          (row0.set 0 0))).get? b) r j = tableEntry (h.get? b) r j) ∧
      (b ≠ a0 →
        (h.set a0 (releaseBlockOfRows t0 0 ReadWriteMode.writeOnly (row0.set 0 0))).get? b =
          h.get? b) :=
  heap_write_keeps h a0 t0 row0 (row0.set 0 0) 1 ht hrow (by simp)
    (by intro m hm; simp [List.getElem?_set_ne (show 0 ≠ m by omega)]) b

/-- Default initialization runs to its end when the count table has a first
row with a value, the input table has a first row with a value for each of its
`nColumns` columns, and the tables of the five per-column vectors have a first
row of at least `nColumns` values. The pointers may share tables. -/
theorem defaultInit_runs {V : Type} [Zero V] (h : TableHeap V) (input : SharedInput)
    (pres : SharedPartialResult) (nColumns : Nat)
    (hcols : ((input.view h).getNumberOfColumns 0).2 = nColumns)
    (hin : hasFirstRow (deref h input.data) nColumns = true)
    (hcount : hasFirstRow (deref h (pres.get nObservations)) 1 = true)
    (hvec : ∀ i, 1 ≤ i → i < nPartialResults →
      hasFirstRow (deref h (pres.get i)) nColumns = true) :
    ∃ r, DefaultPartialResultInit h input pres = some r := by
  obtain ⟨t0, row0, hp0, hrow0, hlen0⟩ := hasFirstRow_elim _ _ hcount
  cases hget : pres.get nObservations with
  | none => rw [hget] at hp0; simp [deref] at hp0
  | some a0 =>
    rw [hget] at hp0
    have ht0 : h.get? a0 = some t0 := hp0
    have hkeep := count_write_keeps h a0 t0 row0 ht0 hrow0
    obtain ⟨tin, rowin, hpin, -, -⟩ := hasFirstRow_elim _ _ hin
    cases hdata : input.data with
    | none => rw [hdata] at hpin; simp [deref] at hpin
    | some ain =>
      rw [hdata] at hpin hin
      have htin : h.get? ain = some tin := hpin
      have hin1 : hasFirstRow ((h.set a0 (releaseBlockOfRows t0 0 ReadWriteMode.writeOnly
          (row0.set 0 0))).get? ain) nColumns = true := by
        rw [(hkeep ain).2.1 nColumns]; exact hin
      obtain ⟨inTable, firstRow, hin1get, hfirst, hflen⟩ := hasFirstRow_elim _ _ hin1
      have hshape := (hkeep ain).1
      rw [hin1get, htin] at hshape
      have hncols : inTable.nColumns = nColumns := by
        simp only [tableShape, Option.some.injEq, Prod.mk.injEq] at hshape
        rw [hshape.2.1, ← hcols]
        simp only [SharedInput.view, hdata, deref, htin, Input.getNumberOfColumns]
      have hvec1 : ∀ k, 1 ≤ k → k < 1 + (nPartialResults - 1) →
          hasFirstRow (deref (h.set a0 (releaseBlockOfRows t0 0 ReadWriteMode.writeOnly
            (row0.set 0 0))) (pres.get k)) inTable.nColumns = true := by
        intro k h1 h2
        have hk := hvec k h1 (by unfold nPartialResults at *; omega)
        rw [hncols]
        cases hgk : pres.get k with
        | none => rw [hgk] at hk; exact absurd hk (by simp [deref, hasFirstRow])
        | some b =>
          rw [hgk] at hk
          have : deref (h.set a0 (releaseBlockOfRows t0 0 ReadWriteMode.writeOnly
              (row0.set 0 0))) (some b) =
              (h.set a0 (releaseBlockOfRows t0 0 ReadWriteMode.writeOnly
                (row0.set 0 0))).get? b := rfl
          rw [this, (hkeep b).2.1 nColumns]
          exact hk
      obtain ⟨r, hr⟩ := initEstimates_runs firstRow inTable.nColumns pres
        (by rw [hncols]; exact hflen) (nPartialResults - 1) 1 _ hvec1
      rcases r with ⟨h2, rest⟩
      have hkeep2 := (initEstimates_keeps firstRow inTable.nColumns pres _ _ _ h2 rest hr).2 ain
      have hin2 : hasFirstRow (h2.get? ain) nColumns = true := by
        rw [hkeep2.2.1 nColumns]; exact hin1
      obtain ⟨inTable2, -, hin2get, -, -⟩ := hasFirstRow_elim _ _ hin2
      have hn : ((SharedInput.view (⟨some ain⟩ : SharedInput)
          (h.set a0 (releaseBlockOfRows t0 0 ReadWriteMode.writeOnly
            (row0.set 0 0)))).getNumberOfColumns 0).2 = inTable.nColumns := by
        simp only [SharedInput.view, deref, hin1get, Input.getNumberOfColumns]
      have hdata2 : input = ⟨some ain⟩ := by
        cases input
        simp only at hdata
        rw [hdata]
      have hpos : 0 < row0.length := by omega
      refine ⟨(h2.set ain (releaseBlockOfRows inTable2 0 ReadWriteMode.readOnly firstRow),
        [BlockEvent.acquire (TableRef.store nObservations) ReadWriteMode.writeOnly,
          BlockEvent.release (TableRef.store nObservations),
          BlockEvent.acquire TableRef.input ReadWriteMode.readOnly] ++ rest ++
        [BlockEvent.release TableRef.input]), ?_⟩
      simp only [DefaultPartialResultInit, hget, ht0, getBlockOfRows, hrow0, hpos, if_true]
      rw [hdata2]
      simp only [hin1get, hfirst, hn, hr, hin2get]

/-- When default initialization runs to its end, it has made the adapter calls
`initEvents`, every table of the memory keeps its shape and the length of its
first row, a table that none of the six slots points to is as before, and the
only values that may differ are entry 0 of the first row of the table held as
count vector and the entries below `nColumns` of the first row of the tables
held as per-column vectors, `nColumns` being the column count the input
reports. -/
theorem defaultInit_keeps {V : Type} [Zero V] (h out : TableHeap V) (input : SharedInput)
    (pres : SharedPartialResult) (events : List BlockEvent)
    (hrun : DefaultPartialResultInit h input pres = some (out, events)) :
    events = initEvents ∧
    ∀ a : Nat,
      tableShape (out.get? a) = tableShape (h.get? a) ∧
      (∀ m, hasFirstRow (out.get? a) m = hasFirstRow (h.get? a) m) ∧
      (∀ r j, ¬ (r = 0 ∧ ((pres.get nObservations = some a ∧ j = 0) ∨
          (j < ((input.view h).getNumberOfColumns 0).2 ∧
            ∃ k, 1 ≤ k ∧ k < nPartialResults ∧ pres.get k = some a))) →
        tableEntry (out.get? a) r j = tableEntry (h.get? a) r j) ∧
      ((∀ k, k < nPartialResults → pres.get k ≠ some a) → out.get? a = h.get? a) := by
  obtain ⟨a0, t0, row0, ain, inTable, firstRow, rest, hget, ht0, hrow0, -, hdata, hin, -,
    hloop, hev⟩ := DefaultPartialResultInit_step h out input pres events hrun
  have hkeep1 := count_write_keeps h a0 t0 row0 ht0 hrow0
  obtain ⟨hrest, hkeep2⟩ := initEstimates_keeps firstRow inTable.nColumns pres _ _ _ out rest
    hloop
  have hncols : ((input.view h).getNumberOfColumns 0).2 = inTable.nColumns := by
    have hs := (hkeep1 ain).1
    rw [hin] at hs
    have hcongr := input_columns_congr (h.get? ain) (some inTable) hs.symm 0
    simp only [SharedInput.view, hdata, deref]
    rw [hcongr]
    rfl
  refine ⟨by rw [hev, hrest]; rfl, ?_⟩
  intro a
  obtain ⟨hs1, hl1, he1, hu1⟩ := hkeep1 a
  obtain ⟨hs2, hl2, he2, hu2⟩ := hkeep2 a
  refine ⟨by rw [hs2, hs1], fun m => by rw [hl2 m, hl1 m], ?_, ?_⟩
  · intro r j hrj
    rw [he2 r j (by
      intro hh
      obtain ⟨h1, h2, k, h3, h4, h5⟩ := hh
      exact hrj ⟨h1, Or.inr ⟨by rw [hncols]; exact h2, k, h3,
        by unfold nPartialResults at *; omega, h5⟩⟩),
      he1 r j (by
      intro hh
      obtain ⟨h1, h2, h3⟩ := hh
      exact hrj ⟨h1, Or.inl ⟨by rw [hget, h3], by omega⟩⟩)]
  · intro hnot
    rw [hu2 (fun k h1 h2 => hnot k (by unfold nPartialResults at *; omega)),
      hu1 (by
        intro hb
        exact hnot nObservations (by decide) (by rw [hget, hb]))]

theorem allocated_hasFirstRow {V : Type} (p : NumericTablePtr V) (c r : Nat)
    (h : allocated p c r = true) (hr : 1 ≤ r) : hasFirstRow p c = true := by
  obtain ⟨t, row, hp, -, hrow, hlen⟩ := allocated_first_row p c r h hr
  rw [hp]
  exact hasFirstRow_intro t row c hrow (by omega)

/-- C13. Every row-block acquired during default initialization is released
exactly once: the call runs to its end on an input with at least one row and
a store of allocated vectors of matching shapes, and in every run that ends
the adapter calls are those of `initEvents`: the count block, the input's
first-row block and one block for each of the five per-column vectors are
acquired, each is released exactly once after its acquisition, and nothing
else is released. -/
theorem blocks_released_once {V : Type} [Zero V] (h : TableHeap V) (input : SharedInput)
    (pres : SharedPartialResult) :
    (∀ (nColumns nRows : Nat), 1 ≤ nRows →
      allocated (input.view h).data nColumns nRows = true →
      allocated ((pres.view h).get nObservations) 1 1 = true →
      (∀ i, 1 ≤ i → i < nPartialResults →
        allocated ((pres.view h).get i) nColumns 1 = true) →
      ∃ r, DefaultPartialResultInit h input pres = some r) ∧
    (∀ out events, DefaultPartialResultInit h input pres = some (out, events) →
      events = initEvents ∧ releasedOnce events [] = true ∧
      acquisitions events =
        [TableRef.store nObservations, TableRef.input, TableRef.store partialMinimum,
         TableRef.store partialMaximum, TableRef.store partialSum,
         TableRef.store partialSumSquares, TableRef.store partialSumSquaresCentered] ∧
      releases events =
        [TableRef.store nObservations, TableRef.store partialMinimum,
         TableRef.store partialMaximum, TableRef.store partialSum,
         TableRef.store partialSumSquares, TableRef.store partialSumSquaresCentered,
         TableRef.input]) := by
  constructor
  · intro nColumns nRows hrows hin hcount hvec
    have hin2 : allocated (deref h input.data) nColumns nRows = true := hin
    obtain ⟨tin, -, hpin, hc, -, -⟩ := allocated_first_row _ _ _ hin2 hrows
    refine defaultInit_runs h input pres nColumns ?_ (allocated_hasFirstRow _ _ _ hin2 hrows)
      ?_ ?_
    · simp only [SharedInput.view, hpin, Input.getNumberOfColumns, hc]
    · rw [← view_get]
      exact allocated_hasFirstRow _ _ _ hcount (le_refl 1)
    · intro i h1 h2
      rw [← view_get]
      exact allocated_hasFirstRow _ _ _ (hvec i h1 h2) (le_refl 1)
  · intro out events hrun
    have hev := (defaultInit_keeps h out input pres events hrun).1
    subst hev
    exact ⟨rfl, by decide, by decide, by decide⟩

/-- Witness of C13: the run on the example memory, store and input. -/
theorem blocks_released_once_witness :
    (∃ r, DefaultPartialResultInit exampleHeap exampleInput exampleStore = some r) ∧
    ∀ out events,
      DefaultPartialResultInit exampleHeap exampleInput exampleStore = some (out, events) →
      events = initEvents ∧ releasedOnce events [] = true ∧
      acquisitions events =
        [TableRef.store nObservations, TableRef.input, TableRef.store partialMinimum,
         TableRef.store partialMaximum, TableRef.store partialSum,
         TableRef.store partialSumSquares, TableRef.store partialSumSquaresCentered] ∧
      releases events =
        [TableRef.store nObservations, TableRef.store partialMinimum,
         TableRef.store partialMaximum, TableRef.store partialSum,
         TableRef.store partialSumSquares, TableRef.store partialSumSquaresCentered,
         TableRef.input] :=
  ⟨(blocks_released_once exampleHeap exampleInput exampleStore).1 2 2 (by decide) (by decide)
      (by decide)
      (by intro i h1 h2; unfold nPartialResults at h2; interval_cases i <;> decide),
    (blocks_released_once exampleHeap exampleInput exampleStore).2⟩

/-- C16, counterexample: when the table of the input is also held by the store
as its sum vector, default initialization writes zeros into the first row of
the input table: the value 5 at row 0, column 0 of the input is 0 after the
call. -/
theorem input_overwritten_counterexample :
    allocated (exampleInput.view heapOneRowInput).data 2 1 = true ∧
    allocated ((storeSumIsInput.view heapOneRowInput).get partialSum) 2 1 = true ∧
    tableEntry (exampleInput.view heapOneRowInput).data 0 0 = some 5 ∧
    (DefaultPartialResultInit heapOneRowInput exampleInput storeSumIsInput).map
      (fun r => tableEntry (exampleInput.view r.1).data 0 0) = some (some 0) := by
  decide

/-- C16, amended. Frame of default initialization: the call runs to its end
when the count table, the input table and the tables of the five per-column
vectors have first rows long enough, and in every run that ends, with
`nColumns` the column count the input reports, every table keeps its layout
and its row and column counts, a table that is none of the store's six
vectors is as before (so is the input table, unless the store holds it as a
vector), and the only values that may differ are entry 0 of the first row of
the table held as count vector and the entries `0 .. nColumns - 1` of the
first row of the tables held as per-column vectors; in each vector of the
store the rows other than the first and the entries at column `nColumns` or
beyond (from column 1 on) are as before; both `check` overloads return the
same status after the call as before it, so a store that passed validation
before the call passes it afterwards. -/
theorem defaultInit_frame {V : Type} [Zero V] (h : TableHeap V) (input : SharedInput)
    (pres : SharedPartialResult) :
    (∀ nColumns : Nat, ((input.view h).getNumberOfColumns 0).2 = nColumns →
      hasFirstRow (input.view h).data nColumns = true →
      hasFirstRow ((pres.view h).get nObservations) 1 = true →
      (∀ i, 1 ≤ i → i < nPartialResults →
        hasFirstRow ((pres.view h).get i) nColumns = true) →
      ∃ r, DefaultPartialResultInit h input pres = some r) ∧
    (∀ out events, DefaultPartialResultInit h input pres = some (out, events) →
      (∀ a : Nat, tableShape (out.get? a) = tableShape (h.get? a)) ∧
      (∀ k : Nat, tableShape ((pres.view out).get k) = tableShape ((pres.view h).get k)) ∧
      (∀ (a r j : Nat),
        ¬ (r = 0 ∧ ((pres.get nObservations = some a ∧ j = 0) ∨
          (j < ((input.view h).getNumberOfColumns 0).2 ∧
            ∃ k, 1 ≤ k ∧ k < nPartialResults ∧ pres.get k = some a))) →
        tableEntry (out.get? a) r j = tableEntry (h.get? a) r j) ∧
      (∀ (k r j : Nat),
        (r ≠ 0 ∨ (((input.view h).getNumberOfColumns 0).2 ≤ j ∧ 1 ≤ j)) →
        tableEntry ((pres.view out).get k) r j = tableEntry ((pres.view h).get k) r j) ∧
      (∀ a : Nat, (∀ k, k < nPartialResults → pres.get k ≠ some a) →
        out.get? a = h.get? a) ∧
      ((∀ k, k < nPartialResults → pres.get k ≠ input.data) →
        input.view out = input.view h) ∧
      (∀ iface : InputIface, (pres.view out).check iface = (pres.view h).check iface) ∧
      (pres.view out).checkPar = (pres.view h).checkPar ∧
      (∀ iface : InputIface, ((pres.view h).check iface).ok = true →
        ((pres.view out).check iface).ok = true)) := by
  constructor
  · intro nColumns hcols hin hcount hvec
    refine defaultInit_runs h input pres nColumns hcols hin ?_ ?_
    · rw [← view_get]; exact hcount
    · intro i h1 h2
      rw [← view_get]; exact hvec i h1 h2
  · intro out events hrun
    obtain ⟨-, hkeep⟩ := defaultInit_keeps h out input pres events hrun
    have hviewshape : ∀ k : Nat,
        tableShape ((pres.view out).get k) = tableShape ((pres.view h).get k) := by
      intro k
      rw [view_get, view_get]
      cases pres.get k with
      | none => rfl
      | some a => exact (hkeep a).1
    have hcongr := check_congr (pres.view out) (pres.view h) hviewshape
    refine ⟨fun a => (hkeep a).1, hviewshape, fun a r j hrj => (hkeep a).2.2.1 r j hrj, ?_,
      fun a hnot => (hkeep a).2.2.2 hnot, ?_, hcongr.1, hcongr.2, ?_⟩
    · intro k r j hrj
      rw [view_get, view_get]
      cases pres.get k with
      | none => rfl
      | some a =>
        refine (hkeep a).2.2.1 r j ?_
        intro hh
        rcases hrj with hr | ⟨hj1, hj2⟩
        · exact hr hh.1
        · rcases hh.2 with ⟨-, hj0⟩ | ⟨hlt, -⟩
          · omega
          · omega
    · intro hnot
      unfold SharedInput.view
      cases hdata : input.data with
      | none => rfl
      | some ain =>
        have : out.get? ain = h.get? ain :=
          (hkeep ain).2.2.2 (fun k hk hh => hnot k hk (by rw [hh, hdata]))
        simp only [deref, this]
    · intro iface hok
      rw [hcongr.1 iface]
      exact hok

/-- Witness of C16 (amended): a store whose vectors have three columns,
initialized from an input of two columns: the run ends, the third column of
the min vector and the input are as before, and the store passes validation
for three features before and after the call. -/
theorem defaultInit_frame_witness :
    ((exampleStore.view wideHeap).check (inputWithColumns 3)).ok = true ∧
    (∃ r, DefaultPartialResultInit wideHeap exampleInput exampleStore = some r) ∧
    ∀ out events,
      DefaultPartialResultInit wideHeap exampleInput exampleStore = some (out, events) →
      tableEntry ((exampleStore.view out).get partialMinimum) 0 2 = some 30 ∧
      exampleInput.view out = exampleInput.view wideHeap ∧
      ((exampleStore.view out).check (inputWithColumns 3)).ok = true :=
  ⟨by decide,
    (defaultInit_frame wideHeap exampleInput exampleStore).1 2 (by decide) (by decide)
      (by decide)
      (by intro i h1 h2; unfold nPartialResults at h2; interval_cases i <;> decide),
    fun out events hrun =>
      ⟨by
        rw [((defaultInit_frame wideHeap exampleInput exampleStore).2 out events
          hrun).2.2.2.1 partialMinimum 0 2 (Or.inr ⟨by decide, by decide⟩)]
        decide,
      ((defaultInit_frame wideHeap exampleInput exampleStore).2 out events hrun).2.2.2.2.2.1
        (by intro k h1; unfold nPartialResults at h1; interval_cases k <;> decide),
      ((defaultInit_frame wideHeap exampleInput exampleStore).2 out events
        hrun).2.2.2.2.2.2.2.2 (inputWithColumns 3) (by decide)⟩⟩

/-! ### Validation on the program state -/

/-- The loop of `checkImpl`, run as steps on the program state, returns the
status of the loop on the tables the store points to and the state it started
from. -/
theorem checkImplLoopStep_eq {V : Type} (n : Nat) :
    ∀ (fuel i : Nat) (s : Status) (m : Machine V),
      checkImplLoopStep n fuel i s m = (checkImplLoop (m.pres.view m.heap) n fuel i s, m) := by
  intro fuel
  induction fuel with
  | zero => intro i s m; rfl
  | succ fuel ih =>
    intro i s m
    simp only [checkImplLoopStep, checkImplLoop, getStep, checkNumericTableStep, view_get]
    split_ifs
    · rfl
    · exact ih _ _ _

/-- The input-taking `check`, run as steps on the program state, returns the
status of `check` on the tables the store points to and the state it started
from. -/
theorem checkStep_eq {V : Type} (input : InputIface) (m : Machine V) :
    checkStep input m = ((m.pres.view m.heap).check input, m) := by
  simp only [checkStep, PartialResult.check, getStep, checkNumericTableStep, checkImplStep,
    PartialResult.checkImpl, checkImplLoopStep_eq, view_get]
  split_ifs <;> rfl

/-- C9. Idempotent re-validation: a call of `check` leaves the program state
(the tables and the store) as it was, and its status is the one `check`
computes from the tables the store points to and from what the input reports;
so a second call right after the first returns the same status, success when
the first call returned success; the status is the same on any store whose
vectors have the same shapes and for any input that reports the same. -/
theorem check_idempotent {V : Type} (m : Machine V) (input : InputIface) :
    (checkStep input m).2 = m ∧
    (checkStep input (checkStep input m).2).2 = m ∧
    (checkStep input (checkStep input m).2).1 = (checkStep input m).1 ∧
    ((checkStep input m).1.ok = true →
      (checkStep input (checkStep input m).2).1.ok = true) ∧
    (checkStep input m).1 = (m.pres.view m.heap).check input ∧
    (∀ (m2 : Machine V) (input2 : InputIface),
      (∀ k : Nat, tableShape ((m2.pres.view m2.heap).get k) =
        tableShape ((m.pres.view m.heap).get k)) →
      input2.getNumberOfColumns = input.getNumberOfColumns →
      (checkStep input2 m2).1 = (checkStep input m).1) := by
  have h1 : (checkStep input m).2 = m := by rw [checkStep_eq]
  refine ⟨h1, by rw [h1, h1], by rw [h1], fun hok => by rw [h1]; exact hok,
    by rw [checkStep_eq], ?_⟩
  intro m2 input2 hshape hin
  rw [checkStep_eq, checkStep_eq]
  have hcongr := (check_congr (m2.pres.view m2.heap) (m.pres.view m.heap) hshape).1 input2
  have hinput : input2 = input := by
    cases input
    cases input2
    simp only at hin
    rw [hin]
  rw [hcongr, hinput]

/-- Witness of C9: two calls in a row on the example store both return
success. -/
theorem check_idempotent_witness :
    (checkStep (inputWithColumns 2) (⟨exampleHeap, exampleStore⟩ : Machine Int)).1.ok = true ∧
    (checkStep (inputWithColumns 2)
      (checkStep (inputWithColumns 2) (⟨exampleHeap, exampleStore⟩ : Machine Int)).2).1.ok =
        true :=
  ⟨by decide,
    (check_idempotent (⟨exampleHeap, exampleStore⟩ : Machine Int)
      (inputWithColumns 2)).2.2.2.1 (by decide)⟩

end low_order_moments
end algorithms
end daal
